import Mathlib

/-!
Verification development for the shared-state layer of the winterwavybot
repository (src/utils.py, src/tiktok_listener.py).

The embedding models:
* JSON documents (`Json`), Python dicts as association lists with Python's
  in-place-update semantics (`dget`, `dset`, `dictUpdate`);
* the on-disk store as a map from path to file content, with `write_json`
  split into its temp-file phase and the atomic `os.replace` step;
* the waitlist helpers (`get_queues`, `save_queues`, `add_to_queue`,
  `remove_from_queue`, `clear_queue`) and the live-snapshot helpers
  (`get_live_stats`, `update_live_stats`, `init_seed_files`);
* the reconnecting ingestion loop of `run_tiktok_listener` as a trace
  semantics over a schedule of session outcomes.
-/

/-- JSON values as produced by Python's `json` module.  Numbers are modelled
as integers: every count handled by the repository is an `int` (floats are
never produced by the code under study). -/
inductive Json where
  | null
  | bool (b : Bool)
  | num (n : Int)
  | str (s : String)
  | arr (elems : List Json)
  | obj (fields : List (String × Json))

/-- Python dict lookup `d[k]` / `k in d`, on an association list.  Parsed
JSON objects and all dicts built by the code have pairwise-distinct keys, so
first-match lookup coincides with Python's dict lookup. -/
def dget : List (String × Json) → String → Option Json
  | [], _ => none
  | (k, v) :: rest, key => if k = key then some v else dget rest key

/-- Python dict assignment `d[k] = v`: replaces the value in place if the key
is present (keeping its position, as Python dicts do), else appends. -/
def dset : List (String × Json) → String → Json → List (String × Json)
  | [], k, v => [(k, v)]
  | (k', v') :: rest, k, v =>
      if k' = k then (k, v) :: rest else (k', v') :: dset rest k v

/-- Python `d.update(p)`: assign each key of `p`, in order, into `d`. -/
def dictUpdate (d : List (String × Json)) (p : List (String × Json)) :
    List (String × Json) :=
  p.foldl (fun acc kv => dset acc kv.1 kv.2) d

/-- Content of one file on disk: either JSON that `json.load` parses, or
content on which `json.load` raises `JSONDecodeError`. -/
inductive FileContent where
  | good (doc : Json)
  | corrupt

/-- The data directory: a map from path to file content; `none` models a
missing file (`FileNotFoundError` on open). -/
def FS : Type := String → Option FileContent

def QUEUES_PATH : String := "data/queues.json"

def LIVE_STATS_PATH : String := "data/live_stats.json"

/-- First phase of `write_json` (src/utils.py:25-28): serialize the full
document to the temporary path `path + ".tmp"` in the same directory.  The
target path is untouched by this phase. -/
def write_json_tmpPhase (fs : FS) (path : String) (data : Json) : FS :=
  fun p => if p = path ++ ".tmp" then some (.good data) else fs p

/-- `os.replace(src, dst)` (src/utils.py:29): a single atomic rename of the
temporary file over the target. -/
def osReplace (fs : FS) (src dst : String) : FS :=
  fun p => if p = dst then fs src else if p = src then none else fs p

/-- `write_json(path, data)` (src/utils.py:25-29): write the serialized
document to `path + ".tmp"`, then atomically rename it onto `path`. -/
def write_json (fs : FS) (path : String) (data : Json) : FS :=
  osReplace (write_json_tmpPhase fs path data) (path ++ ".tmp") path

/-- `read_json(path, default)` (src/utils.py:14-22).  Missing file
(`FileNotFoundError`): write the default and return it.  Unparsable file
(`JSONDecodeError`): return the default without writing.  Returns the
document together with the (possibly seeded) file system. -/
def read_json (fs : FS) (path : String) (default : Json) : Json × FS :=
  match fs path with
  | none => (default, write_json fs path default)
  | some (.good j) => (j, fs)
  | some .corrupt => (default, fs)

/-- `os.path.dirname`, on the character list of the path. -/
def dirnameList (l : List Char) : List Char :=
  ((l.reverse.dropWhile (· ≠ '/')).drop 1).reverse

/-- `os.path.dirname(path)` — everything before the final `/`. -/
def pyDirname (s : String) : String := String.mk (dirnameList s.data)

/-- The whitespace characters stripped by Python's `str.strip()`. -/
def pyWSChar (c : Char) : Bool :=
  c = ' ' || c = '\t' || c = '\n' || c = '\r' || c = '\x0b' || c = '\x0c'

/-- `str.strip()` on a character list: drop whitespace from both ends. -/
def stripList (l : List Char) : List Char :=
  ((l.dropWhile pyWSChar).reverse.dropWhile pyWSChar).reverse

/-- Python `s.strip()`. -/
def pyStrip (s : String) : String := String.mk (stripList s.data)

/-- Python `str.lower()` on one character.  The repository's category keys
are ASCII, so the ASCII case table is spelled out; other characters are
returned unchanged. -/
def pyLowerChar (c : Char) : Char :=
  match c with
  | 'A' => 'a' | 'B' => 'b' | 'C' => 'c' | 'D' => 'd' | 'E' => 'e'
  | 'F' => 'f' | 'G' => 'g' | 'H' => 'h' | 'I' => 'i' | 'J' => 'j'
  | 'K' => 'k' | 'L' => 'l' | 'M' => 'm' | 'N' => 'n' | 'O' => 'o'
  | 'P' => 'p' | 'Q' => 'q' | 'R' => 'r' | 'S' => 's' | 'T' => 't'
  | 'U' => 'u' | 'V' => 'v' | 'W' => 'w' | 'X' => 'x' | 'Y' => 'y'
  | 'Z' => 'z'
  | _ => c

/-- Python `s.lower()`. -/
def pyLower (s : String) : String := String.mk (s.data.map pyLowerChar)

/-- Lexicographic comparison of character lists by code point — how Python
compares strings in `sorted`. -/
def lexLe : List Char → List Char → Bool
  | [], _ => true
  | _ :: _, [] => false
  | a :: as, b :: bs => if a = b then lexLe as bs else decide (a < b)

/-- `a <= b` for strings, as Python's `sorted` orders them. -/
def strLeb (a b : String) : Bool := lexLe a.data b.data

/-- The ordering relation used throughout: `strLeb` read as a proposition. -/
def SLe (a b : String) : Prop := strLeb a b = true

/-- Insert a string into a `strLeb`-sorted list, keeping it sorted. -/
def insertLe (x : String) : List String → List String
  | [] => [x]
  | y :: ys => if strLeb x y then x :: y :: ys else y :: insertLe x ys

/-- Insertion sort by `strLeb` — the model of Python's `sorted` for strings
(its output, the ascending reordering, is what matters, not its algorithm). -/
def sortLe (l : List String) : List String := l.foldr insertLe []

/-- `sorted(set(l))` / `sorted({x: None for x in l}.keys())`: the ascending
duplicate-free reordering of `l`.  The result depends only on the set of
elements, so the order in which duplicates are discarded is irrelevant. -/
def pySortedSet (l : List String) : List String := sortLe l.dedup

mutual

/-- Python `repr` for JSON-like values (used by `str` on non-string values;
the repository's queue entries are strings, so this is exercised only on the
`str` constructor's siblings). -/
def pyRepr : Json → String
  | .null => "None"
  | .bool true => "True"
  | .bool false => "False"
  | .num n => toString n
  | .str s => "'" ++ s ++ "'"
  | .arr xs => "[" ++ pyReprArr xs ++ "]"
  | .obj kvs => "\x7b" ++ pyReprObj kvs ++ "\x7d"

/-- Comma-separated `repr`s of a list's elements. -/
def pyReprArr : List Json → String
  | [] => ""
  | [x] => pyRepr x
  | x :: y :: rest => pyRepr x ++ ", " ++ pyReprArr (y :: rest)

/-- Comma-separated `repr`s of a dict's items. -/
def pyReprObj : List (String × Json) → String
  | [] => ""
  | [(k, v)] => "'" ++ k ++ "': " ++ pyRepr v
  | (k, v) :: y :: rest => "'" ++ k ++ "': " ++ pyRepr v ++ ", " ++ pyReprObj (y :: rest)

end

/-- Python `str(u)` for a JSON value `u`: strings unchanged, everything else
via its `repr`-like rendering. -/
def pyStrFn : Json → String
  | .str s => s
  | j => pyRepr j

/-- Normalization that `get_queues` (src/utils.py:63-75) applies to one
category's value: a list becomes the sorted duplicate-free list of
`str(u).strip()` over its members; any non-list value becomes `[]`. -/
def normalizeUsers : Json → List String
  | .arr us => pySortedSet (us.map fun u => pyStrip (pyStrFn u))
  | _ => []

/-- `get_queues()` (src/utils.py:63-75): read the queues document (seeding
`{}` if the file is missing), return `{}` if it is not a dict, and otherwise
normalize every category's value.  `ensure_data_dir` only creates the data
directory and has no effect in this model.  Returns the normalized table and
the possibly-seeded file system. -/
def get_queues (fs : FS) : List (String × List String) × FS :=
  let r := read_json fs QUEUES_PATH (.obj [])
  match r.1 with
  | .obj items => (items.map fun kv => (kv.1, normalizeUsers kv.2), r.2)
  | _ => ([], r.2)

/-- Lookup in the normalized queues table (Python `queues.get(k, [])` uses
exact dict-key matching). -/
def qget : List (String × List String) → String → Option (List String)
  | [], _ => none
  | (k, v) :: rest, key => if k = key then some v else qget rest key

/-- Assignment `queues[k] = v` on the normalized table. -/
def qset : List (String × List String) → String → List String →
    List (String × List String)
  | [], k, v => [(k, v)]
  | (k', v') :: rest, k, v =>
      if k' = k then (k, v) :: rest else (k', v') :: qset rest k v

/-- The normalization pass of `save_queues` (src/utils.py:78-85): rebuild the
dict with every key trimmed and every value deduplicated, trimmed and sorted.
In the typed model every value is a list, so the `isinstance(users, list)`
guard always holds. -/
def saveNormalize (queues : List (String × List String)) :
    List (String × List String) :=
  queues.foldl (fun acc kv => qset acc (pyStrip kv.1) (pySortedSet (kv.2.map pyStrip))) []

/-- Encode the normalized table back into the JSON document that
`write_json` serializes. -/
def encodeQueues (queues : List (String × List String)) : Json :=
  .obj (queues.map fun kv => (kv.1, .arr (kv.2.map .str)))

/-- `save_queues(queues)` (src/utils.py:78-85): normalize, then write the
whole table. -/
def save_queues (fs : FS) (queues : List (String × List String)) : FS :=
  write_json fs QUEUES_PATH (encodeQueues (saveNormalize queues))

/-- `add_to_queue(game, username)` (src/utils.py:88-95): read-normalize the
table, insert the trimmed username into the trimmed-and-lowercased
category's set, sort it, and persist the whole table. -/
def add_to_queue (fs : FS) (game username : String) : FS :=
  let r := get_queues fs
  let game_key := pyLower (pyStrip game)
  let username_key := pyStrip username
  let users := (qget r.1 game_key).getD []
  save_queues r.2 (qset r.1 game_key (pySortedSet (users ++ [username_key])))

/-- `remove_from_queue(game, username)` (src/utils.py:98-108): `false`
without saving when the category key is absent or the username is not in its
list; otherwise filter the username out, persist, and return `true`. -/
def remove_from_queue (fs : FS) (game username : String) : Bool × FS :=
  let r := get_queues fs
  let game_key := pyLower (pyStrip game)
  let username_key := pyStrip username
  match qget r.1 game_key with
  | none => (false, r.2)
  | some users =>
      if username_key ∈ users then
        (true, save_queues r.2 (qset r.1 game_key (users.filter (· ≠ username_key))))
      else (false, r.2)

/-- `clear_queue(game)` (src/utils.py:111-114): set the category to the empty
list and persist. -/
def clear_queue (fs : FS) (game : String) : FS :=
  let r := get_queues fs
  save_queues r.2 (qset r.1 (pyLower (pyStrip game)) [])

/-- The waitlist operations reachable from the chat commands and dashboard. -/
inductive QOp where
  | add (game username : String)
  | remove (game username : String)
  | clear (game : String)
  | list

/-- Effect of one waitlist operation on the store. -/
def applyQOp (fs : FS) : QOp → FS
  | .add g u => add_to_queue fs g u
  | .remove g u => (remove_from_queue fs g u).2
  | .clear g => clear_queue fs g
  | .list => (get_queues fs).2

/-- Run a sequence of waitlist operations. -/
def runQOps (fs : FS) (ops : List QOp) : FS := ops.foldl applyQOp fs

/-- The call-site query pattern `get_queues().get(game.strip().lower(), [])`
(src/main.py:47): an absent category reads as the empty list. -/
def queue_query (fs : FS) (game : String) : List String :=
  (qget (get_queues fs).1 (pyLower (pyStrip game))).getD []

/-- `get_live_stats()` (src/utils.py:119-124): read the live-stats document
with default `{}` (seeding `{}` if the file is missing), and return `{}` when
the document is not a dict. -/
def get_live_stats (fs : FS) : List (String × Json) × FS :=
  let r := read_json fs LIVE_STATS_PATH (.obj [])
  match r.1 with
  | .obj items => (items, r.2)
  | _ => ([], r.2)

/-- `update_live_stats(partial)` (src/utils.py:127-134): read the current
stats, `stats.update(partial)`, and persist.  Returns the merged dict and the
new file system. -/
def update_live_stats (fs : FS) (upd : List (String × Json)) :
    List (String × Json) × FS :=
  let r := get_live_stats fs
  let stats := dictUpdate r.1 upd
  (stats, write_json r.2 LIVE_STATS_PATH (.obj stats))

/-- The documented default snapshot built in `init_seed_files`
(src/utils.py:44-52); `envUsername` is `os.getenv("TIKTOK_USERNAME", "")`. -/
def default_stats (envUsername : String) : Json :=
  .obj [("connected", .bool false), ("viewers", .num 0), ("likes", .num 0),
        ("last_comment", .null), ("last_gift", .null), ("updated_at", .null),
        ("tiktok_username", .str envUsername)]

/-- The queues section of `init_seed_files` (src/utils.py:34-41): write `{}`
when the file is missing, re-write `{}` when it is present but not a dict. -/
def init_seed_queues (fs : FS) : FS :=
  match fs QUEUES_PATH with
  | none => write_json fs QUEUES_PATH (.obj [])
  | some _ =>
      match read_json fs QUEUES_PATH (.obj []) with
      | (.obj _, fs1) => fs1
      | (_, fs1) => write_json fs1 QUEUES_PATH (.obj [])

/-- The live-stats section of `init_seed_files` (src/utils.py:43-58): write
the documented default snapshot when the file is missing, re-write it when
the file is present but not a dict. -/
def init_seed_live (envUsername : String) (fs : FS) : FS :=
  match fs LIVE_STATS_PATH with
  | none => write_json fs LIVE_STATS_PATH (default_stats envUsername)
  | some _ =>
      match read_json fs LIVE_STATS_PATH (default_stats envUsername) with
      | (.obj _, fs1) => fs1
      | (_, fs1) => write_json fs1 LIVE_STATS_PATH (default_stats envUsername)

/-- `init_seed_files()` (src/utils.py:32-58), run once on module import: the
queues section followed by the live-stats section. -/
def init_seed_files (envUsername : String) (fs : FS) : FS :=
  init_seed_live envUsername (init_seed_queues fs)

/-- Modelled from the spec: the Live Snapshot merge as §4.3 describes it —
shallow-merge the named fields, then set `updated_at` to the current UTC
instant (`now`) as part of the merge call itself, and persist.  This is the
comparison point for the claim that the code's `update_live_stats` behaves
this way; the code itself takes no clock. -/
def update_live_stats_specModelled (now : String) (fs : FS)
    (upd : List (String × Json)) : List (String × Json) × FS :=
  let r := get_live_stats fs
  let stats := dset (dictUpdate r.1 upd) "updated_at" (.str now)
  (stats, write_json r.2 LIVE_STATS_PATH (.obj stats))

/-- `event.user` as probed by the handlers: `uniqueId` / `nickname`
attributes, `none` for an absent attribute or `None` value. -/
structure CUser where
  uniqueId : Option String
  nickname : Option String

/-- The `gift` object attached to a gift event (`gift.name`). -/
structure GiftObj where
  name : Option Json

/-- Inbound TikTokLive events, with exactly the attributes the handlers in
src/tiktok_listener.py probe via `getattr` (absent attribute = `none`). -/
inductive TEvent where
  | connect
  | disconnect
  | viewerCount (viewerCountAttr : Option Json) (viewersAttr : Option Json)
  | like (totalLikes : Option Json) (likeCount : Option Json) (countAttr : Option Json)
  | comment (user : Option CUser) (commentAttr : Option Json)
  | gift (giftAttr : Option GiftObj) (repeatCountAttr : Option Json)
      (countAttr : Option Json) (user : Option CUser)

/-- How one session (`client.start()`) ends. -/
inductive SessionEnd where
  | raised
  | cancelledDuringStart
  | normalReturn

/-- One scheduled iteration of the reconnect loop: whether `stop_event` is
set at the loop top, the events delivered during the session, how the session
ends, and (for a failed session) whether cancellation arrives during the
backoff sleep. -/
structure Iter where
  stopAtTop : Bool
  events : List TEvent
  ending : SessionEnd
  cancelDuringBackoff : Bool

/-- How `run_tiktok_listener` terminates. -/
inductive LoopExit where
  | stoppedAtTop (n : Nat)
  | cancelledStreaming
  | cancelledBackoff
  | normalExit
  | noUsername
  | libMissing
  | schedEnded

/-- Observable actions of the ingestion loop: a call to
`update_live_stats` with the given dict, or a completed backoff sleep. -/
inductive LAction where
  | merge (upd : List (String × Json))
  | wait (seconds : Nat)

/-- Python truthiness, for `getattr(event, "count", 1) or 1`. -/
def pyTruthy : Json → Bool
  | .null => false
  | .bool b => b
  | .num n => decide (n ≠ 0)
  | .str s => decide (s ≠ "")
  | .arr l => !l.isEmpty
  | .obj l => !l.isEmpty

/-- `isinstance(x, int)`.  Python's `bool` is a subclass of `int`, so `bool`
values pass the check too. -/
def pyIsInt : Json → Bool
  | .num _ => true
  | .bool _ => true
  | _ => false

/-- The integer value of something that passed `isinstance(x, int)`. -/
def pyIntOf : Json → Int
  | .num n => n
  | .bool b => if b then 1 else 0
  | _ => 0

/-- `int(x)`: `none` models the `ValueError`/`TypeError` that the handler's
`except` swallows.  String parsing approximates Python's `int(str)`. -/
def pyIntCast : Json → Option Int
  | .num n => some n
  | .bool b => some (if b then 1 else 0)
  | .str s => (pyStrip s).toInt?
  | _ => none

/-- Python `a or b` on two optional strings (empty string is falsy). -/
def pyOrStr (a b : Option String) : Option String :=
  match a with
  | some s => if s = "" then b else some s
  | none => b

/-- The commenter/gifter identity fallback used by `on_comment`/`on_gift`:
`event.user.uniqueId or event.user.nickname` when `event.user` exists and is
not `None`, else `None`. -/
def identOf : Option CUser → Option String
  | none => none
  | some u => pyOrStr u.uniqueId u.nickname

/-- Render an optional string as the JSON value stored in the snapshot. -/
def optStr : Option String → Json
  | none => .null
  | some s => .str s

/-- In-session handler state: the session-local `like_counter` and the tick
index for `_now_iso()` (each `update_live_stats`-call site evaluates the
clock once). -/
structure SessState where
  likeCounter : Option Int
  t : Nat

/-- One event handler dispatch (the `@client.on(...)` handlers,
src/tiktok_listener.py:64-152): the merges it performs and the new session
state.  A handler whose translation fails performs no merge (its `except`
swallows the error). -/
def handleEvent (clock : Nat → String) (username : String) (st : SessState) :
    TEvent → List LAction × SessState
  | .connect =>
      ([.merge [("connected", .bool true), ("updated_at", .str (clock st.t)),
                ("tiktok_username", .str username)]],
       { st with t := st.t + 1 })
  | .disconnect =>
      ([.merge [("connected", .bool false), ("updated_at", .str (clock st.t))]],
       { st with t := st.t + 1 })
  | .viewerCount vc vs =>
      let viewers := match vc with
        | some j => some j
        | none => vs
      match viewers with
      | some j =>
          if pyIsInt j then
            ([.merge [("viewers", j), ("updated_at", .str (clock st.t))]],
             { st with t := st.t + 1 })
          else ([], st)
      | none => ([], st)
  | .like totalLikes likeCount countAttr =>
      match totalLikes with
      | some j =>
          if pyIsInt j then
            let lc := pyIntOf j
            ([.merge [("likes", .num lc), ("updated_at", .str (clock st.t))]],
             { likeCounter := some lc, t := st.t + 1 })
          else likeIncrement clock st likeCount countAttr
      | none => likeIncrement clock st likeCount countAttr
  | .comment user commentAttr =>
      ([.merge [("last_comment",
                 .obj [("user", optStr (identOf user)),
                       ("comment", commentAttr.getD .null)]),
                ("updated_at", .str (clock st.t))]],
       { st with t := st.t + 1 })
  | .gift giftAttr repeatCountAttr countAttr user =>
      let giftName := match giftAttr with
        | some g => g.name.getD .null
        | none => .null
      let repeatCount := (match repeatCountAttr with
        | some j => some j
        | none => countAttr).getD .null
      ([.merge [("last_gift",
                 .obj [("user", optStr (identOf user)), ("gift", giftName),
                       ("repeat_count", repeatCount)]),
                ("updated_at", .str (clock st.t))]],
       { st with t := st.t + 1 })
where
  /-- The increment branch of `on_like`: when the event has no integer
  cumulative total, fall back to `likeCount`, then `count` (default 1,
  `or 1` for falsy values), seed the counter with 0 if unset, and add
  `int(increment)`; a failing `int(...)` drops the merge but keeps the
  already-seeded counter. -/
  likeIncrement (clock : Nat → String) (st : SessState)
      (likeCount countAttr : Option Json) : List LAction × SessState :=
    let countFallback :=
      let c := countAttr.getD (.num 1)
      if pyTruthy c then c else .num 1
    let incrementJ := match likeCount with
      | some j => if pyIsInt j then j else countFallback
      | none => countFallback
    let lc0 : Int := st.likeCounter.getD 0
    match pyIntCast incrementJ with
    | some i =>
        ([.merge [("likes", .num (lc0 + i)), ("updated_at", .str (clock st.t))]],
         { likeCounter := some (lc0 + i), t := st.t + 1 })
    | none => ([], { st with likeCounter := some lc0 })

/-- The streaming phase of one session: dispatch each delivered event in
order, starting with a fresh `like_counter` (it is local to the session,
src/tiktok_listener.py:62). -/
def runSession (clock : Nat → String) (username : String)
    (events : List TEvent) (t : Nat) : List LAction × Nat :=
  let r := events.foldl
    (fun (acc : List LAction × SessState) e =>
      let h := handleEvent clock username acc.2 e
      (acc.1 ++ h.1, h.2))
    ([], ⟨none, t⟩)
  (r.1, r.2.t)

/-- The dict merged on every `connected: false` transition
(src/tiktok_listener.py:74-77, 157-160, 169-172). -/
def connFalseUpd (s : String) : List (String × Json) :=
  [("connected", .bool false), ("updated_at", .str s)]

/-- The reconnect loop of `run_tiktok_listener` (src/tiktok_listener.py:55-175)
as a trace over a schedule.  Per iteration: the `stop_event` check at the loop
top returns with no merge; a session that raises runs the `except` block
(merge `connected:false`, backoff sleep, `continue`) — and the `finally`
block merges `connected:false` again on the way out of the `try`; a
cancellation during the backoff sleep returns (again through `finally`);
a `CancelledError` inside `client.start()` escapes `except Exception` but
still runs `finally`; a normal `client.start()` return runs `finally` and
exits the loop.  `t` is the clock tick, `idx` the number of completed
iterations. -/
def runLoop (clock : Nat → String) (username : String) :
    Nat → Nat → List Iter → List LAction × LoopExit
  | _, _, [] => ([], .schedEnded)
  | t, idx, iter :: rest =>
    if iter.stopAtTop then ([], .stoppedAtTop idx)
    else
      let s := runSession clock username iter.events t
      match iter.ending with
      | .cancelledDuringStart =>
          (s.1 ++ [.merge (connFalseUpd (clock s.2))], .cancelledStreaming)
      | .normalReturn =>
          (s.1 ++ [.merge (connFalseUpd (clock s.2))], .normalExit)
      | .raised =>
          if iter.cancelDuringBackoff then
            (s.1 ++ [.merge (connFalseUpd (clock s.2)),
                     .merge (connFalseUpd (clock (s.2 + 1)))],
             .cancelledBackoff)
          else
            let tail := runLoop clock username (s.2 + 2) (idx + 1) rest
            (s.1 ++ [.merge (connFalseUpd (clock s.2)), .wait 5,
                     .merge (connFalseUpd (clock (s.2 + 1)))] ++ tail.1,
             tail.2)

/-- `run_tiktok_listener` (src/tiktok_listener.py:28-175): with no configured
username, or with the TikTokLive library unavailable, one
`connected:false` merge and exit; otherwise the reconnect loop. -/
def run_tiktok_listener (libAvailable : Bool) (clock : Nat → String)
    (username : String) (sched : List Iter) : List LAction × LoopExit :=
  if username = "" then
    ([.merge [("connected", .bool false), ("updated_at", .str (clock 0)),
              ("tiktok_username", .str "")]], .noUsername)
  else if libAvailable = false then
    ([.merge [("connected", .bool false), ("updated_at", .str (clock 0)),
              ("tiktok_username", .str username)]], .libMissing)
  else
    runLoop clock username 0 0 sched

/-- Replay one loop action against the store (a merge is a call to
`update_live_stats`; a backoff sleep touches nothing). -/
def applyLAction (fs : FS) : LAction → FS
  | .merge upd => (update_live_stats fs upd).2
  | .wait _ => fs

/-- Replay a loop trace against the store. -/
def applyLActions (fs : FS) (acts : List LAction) : FS :=
  acts.foldl applyLAction fs

/-- Does this action merge `connected: false`? -/
def mergesConnFalse : LAction → Bool
  | .merge upd =>
      match dget upd "connected" with
      | some (.bool false) => true
      | _ => false
  | .wait _ => false

/-- Does this action merge `connected: true`? -/
def mergesConnTrue : LAction → Bool
  | .merge upd =>
      match dget upd "connected" with
      | some (.bool true) => true
      | _ => false
  | .wait _ => false

/-- A scheduled iteration whose session fails immediately (no events), with
cancellation never observed. -/
def failIter : Iter := ⟨false, [], .raised, false⟩

/-- A scheduled iteration whose session connects successfully (the client
fires the connect event) and later ends with a normal return. -/
def okIter : Iter := ⟨false, [.connect], .normalReturn, false⟩

/-- Well-formedness of the persisted queues document that `save_queues`
itself guarantees for every table it writes: the keys are trimmed and
pairwise distinct.  A missing, corrupt, or non-dict document is unrestricted
(the readers normalize those to the empty table). -/
def QueuesKeysCanon (fs : FS) : Prop :=
  match fs QUEUES_PATH with
  | some (.good (.obj items)) =>
      (∀ kv ∈ items, pyStrip kv.1 = kv.1) ∧ (items.map Prod.fst).Nodup
  | _ => True

/-- A canonical category value: exactly what `get_queues` and `save_queues`
produce — trimmed entries, ascending, duplicate-free. -/
def CanonList (l : List String) : Prop :=
  (∀ x ∈ l, pyStrip x = x) ∧ List.Pairwise SLe l ∧ l.Nodup

/-- A fixed example clock for concrete runs of the listener model. -/
def clockIx : Nat → String := fun n => toString n

/-- Three immediately-failing sessions followed by one that connects and
ends normally — the reconnect-cycle scenario of the spec's §8. -/
def sched3ok : List Iter := [failIter, failIter, failIter, okIter]

/-- Example store for the atomic-write claim: one parseable document. -/
def fsC2ex : FS := fun p =>
  if p = "data/x.json" then some (.good (.num 1)) else none

/-- A session that connects, then is cancelled during the backoff sleep of
its failure — the cancellation-safety scenario. -/
def sched4ex : List Iter := [⟨false, [.connect], .raised, true⟩]

/-- Example store whose snapshot currently claims `connected: true`. -/
def fsC4ex : FS := fun p =>
  if p = LIVE_STATS_PATH then some (.good (.obj [("connected", .bool true)]))
  else none

/-- The empty store: no files on disk. -/
def fsC5ex : FS := fun _ => none

/-- Example store for the merge-timestamp claim: a snapshot whose
`updated_at` is the old instant `"A"`. -/
def fsC1ex : FS := fun p =>
  if p = LIVE_STATS_PATH then
    some (.good (.obj [("updated_at", .str "A"), ("viewers", .num 7)]))
  else none

/-- Example store for the sparse-merge claim: a snapshot with a previously
set `last_comment` and `updated_at`. -/
def fsC6ex : FS := fun p =>
  if p = LIVE_STATS_PATH then
    some (.good (.obj
      [("updated_at", .str "A"), ("viewers", .num 7),
       ("last_comment", .obj [("user", .str "u"), ("comment", .str "hi")])]))
  else none

/-- Example store with one two-member waitlist. -/
def fsC7ex : FS := fun p =>
  if p = QUEUES_PATH then
    some (.good (.obj [("valorant", .arr [.str "Alice", .str "Bob"])]))
  else none

/-- A persisted waitlist table whose two keys collide after trimming —
reachable only by editing the file by hand, never written by `save_queues`. -/
def fsC8ex : FS := fun p =>
  if p = QUEUES_PATH then
    some (.good (.obj [("g", .arr []), (" g ", .arr [.str "w"])]))
  else none

/-- Example store for the add-idempotence witness. -/
def fsC8w : FS := fun p =>
  if p = QUEUES_PATH then
    some (.good (.obj [("valorant", .arr [.str "Alice"])]))
  else none

/-- Example operation sequence for the invariant witness. -/
def opsC9ex : List QOp :=
  [.add "Valorant" " Alice ", .add "valorant" "Bob", .remove "VALORANT" "Bob", .list]

/-! ## Store lemmas -/

theorem append_tmp_ne (path : String) : path ≠ path ++ ".tmp" := by
  intro h
  have hl : path.length = (path ++ ".tmp").length := by rw [← h]
  rw [String.length_append] at hl
  have h4 : (".tmp" : String).length = 4 := rfl
  omega

theorem write_json_get_self (fs : FS) (path : String) (data : Json) :
    write_json fs path data path = some (.good data) := by
  show (if path = path then
      (if path ++ ".tmp" = path ++ ".tmp" then some (.good data)
       else fs (path ++ ".tmp"))
    else if path = path ++ ".tmp" then none
    else if path = path ++ ".tmp" then some (.good data) else fs path) =
    some (.good data)
  rw [if_pos rfl, if_pos rfl]

theorem write_json_get_tmp (fs : FS) (path : String) (data : Json) :
    write_json fs path data (path ++ ".tmp") = none := by
  show (if path ++ ".tmp" = path then
      (if path ++ ".tmp" = path ++ ".tmp" then some (.good data)
       else fs (path ++ ".tmp"))
    else if path ++ ".tmp" = path ++ ".tmp" then none
    else if path ++ ".tmp" = path ++ ".tmp" then some (.good data)
    else fs (path ++ ".tmp")) = none
  rw [if_neg (Ne.symm (append_tmp_ne path)), if_pos rfl]

theorem write_json_get_other (fs : FS) (path : String) (data : Json)
    (q : String) (h1 : q ≠ path) (h2 : q ≠ path ++ ".tmp") :
    write_json fs path data q = fs q := by
  show (if q = path then
      (if path ++ ".tmp" = path ++ ".tmp" then some (.good data)
       else fs (path ++ ".tmp"))
    else if q = path ++ ".tmp" then none
    else if q = path ++ ".tmp" then some (.good data) else fs q) = fs q
  rw [if_neg h1, if_neg h2, if_neg h2]

theorem write_json_write_json (fs : FS) (path : String) (d d' : Json) :
    write_json (write_json fs path d) path d' = write_json fs path d' := by
  funext q
  by_cases hq : q = path
  · subst hq
    rw [write_json_get_self, write_json_get_self]
  · by_cases ht : q = path ++ ".tmp"
    · subst ht
      rw [write_json_get_tmp, write_json_get_tmp]
    · rw [write_json_get_other _ _ _ _ hq ht, write_json_get_other _ _ _ _ hq ht,
          write_json_get_other _ _ _ _ hq ht]

theorem tmpPhase_target (fs : FS) (path : String) (data : Json) :
    write_json_tmpPhase fs path data path = fs path := by
  show (if path = path ++ ".tmp" then some (.good data) else fs path) = fs path
  rw [if_neg (append_tmp_ne path)]

/-! ## Dict lemmas -/

theorem dget_dset_self (d : List (String × Json)) (k : String) (v : Json) :
    dget (dset d k v) k = some v := by
  induction d with
  | nil => simp [dget, dset]
  | cons kv rest ih =>
      obtain ⟨k', v'⟩ := kv
      by_cases h : k' = k <;> simp [dget, dset, h, ih]

theorem dget_dset_ne (d : List (String × Json)) (k k' : String) (v : Json)
    (h : k' ≠ k) : dget (dset d k v) k' = dget d k' := by
  induction d with
  | nil => simp [dget, dset, Ne.symm h]
  | cons kv rest ih =>
      obtain ⟨k₀, v₀⟩ := kv
      by_cases h0 : k₀ = k
      · subst h0
        simp [dget, dset, Ne.symm h]
      · simp [dget, dset, h0, ih]

theorem dget_dictUpdate_not_mem (d : List (String × Json))
    (p : List (String × Json)) (k : String) (h : k ∉ p.map Prod.fst) :
    dget (dictUpdate d p) k = dget d k := by
  induction p generalizing d with
  | nil => rfl
  | cons kv rest ih =>
      simp only [List.map_cons, List.mem_cons, not_or] at h
      show dget (dictUpdate (dset d kv.1 kv.2) rest) k = dget d k
      rw [ih _ h.2, dget_dset_ne _ _ _ _ h.1]

theorem dget_dictUpdate_mem (d : List (String × Json))
    (p : List (String × Json)) (k : String) (v : Json)
    (hnd : (p.map Prod.fst).Nodup) (hm : (k, v) ∈ p) :
    dget (dictUpdate d p) k = some v := by
  induction p generalizing d with
  | nil => cases hm
  | cons kv rest ih =>
      simp only [List.map_cons, List.nodup_cons] at hnd
      rcases List.mem_cons.mp hm with heq | hrest
      · subst heq
        show dget (dictUpdate (dset d k v) rest) k = some v
        have hk : k ∉ rest.map Prod.fst := hnd.1
        rw [dget_dictUpdate_not_mem _ _ _ hk, dget_dset_self]
      · exact ih _ hnd.2 hrest

/-! ## Queue-table (qget/qset) lemmas -/

theorem qget_qset_self (d : List (String × List String)) (k : String)
    (v : List String) : qget (qset d k v) k = some v := by
  induction d with
  | nil => simp [qget, qset]
  | cons kv rest ih =>
      obtain ⟨k', v'⟩ := kv
      by_cases h : k' = k <;> simp [qget, qset, h, ih]

theorem qget_qset_ne (d : List (String × List String)) (k k' : String)
    (v : List String) (h : k' ≠ k) : qget (qset d k v) k' = qget d k' := by
  induction d with
  | nil => simp [qget, qset, Ne.symm h]
  | cons kv rest ih =>
      obtain ⟨k₀, v₀⟩ := kv
      by_cases h0 : k₀ = k
      · subst h0
        simp [qget, qset, Ne.symm h]
      · simp [qget, qset, h0, ih]

theorem qset_of_not_mem (d : List (String × List String)) (k : String)
    (v : List String) (h : k ∉ d.map Prod.fst) : qset d k v = d ++ [(k, v)] := by
  induction d with
  | nil => rfl
  | cons kv rest ih =>
      simp only [List.map_cons, List.mem_cons, not_or] at h
      obtain ⟨k', v'⟩ := kv
      simp only [qset, if_neg (Ne.symm h.1)]
      rw [ih h.2]
      rfl

theorem qset_eq_self (d : List (String × List String)) (k : String)
    (v : List String) (h : qget d k = some v) : qset d k v = d := by
  induction d with
  | nil => simp [qget] at h
  | cons kv rest ih =>
      obtain ⟨k', v'⟩ := kv
      by_cases h0 : k' = k
      · subst h0
        have h' : v' = v := by simpa [qget] using h
        subst h'
        simp [qset]
      · simp only [qget, if_neg h0] at h
        simp [qset, h0, ih h]

theorem qget_none_of_not_mem (d : List (String × List String)) (k : String)
    (h : k ∉ d.map Prod.fst) : qget d k = none := by
  induction d with
  | nil => rfl
  | cons kv rest ih =>
      simp only [List.map_cons, List.mem_cons, not_or] at h
      simp [qget, Ne.symm h.1, ih h.2]

theorem qset_map_fst_mem (d : List (String × List String)) (k : String)
    (v : List String) (h : k ∈ d.map Prod.fst) :
    (qset d k v).map Prod.fst = d.map Prod.fst := by
  induction d with
  | nil => cases h
  | cons kv rest ih =>
      obtain ⟨k', v'⟩ := kv
      by_cases h0 : k' = k
      · simp [qset, h0]
      · simp only [List.map_cons, List.mem_cons] at h
        rcases h with h | h
        · exact absurd h.symm h0
        · simp [qset, h0, ih h]

theorem qset_mem (d : List (String × List String)) (k : String)
    (v : List String) (kv : String × List String) (h : kv ∈ qset d k v) :
    kv = (k, v) ∨ kv ∈ d := by
  induction d with
  | nil => simpa [qset] using h
  | cons kv₀ rest ih =>
      obtain ⟨k', v'⟩ := kv₀
      by_cases h0 : k' = k
      · simp only [qset, if_pos h0] at h
        rcases List.mem_cons.mp h with h | h
        · exact Or.inl h
        · exact Or.inr (List.mem_cons_of_mem _ h)
      · simp only [qset, if_neg h0] at h
        rcases List.mem_cons.mp h with h | h
        · exact Or.inr (h ▸ List.mem_cons_self _ _)
        · rcases ih h with h | h
          · exact Or.inl h
          · exact Or.inr (List.mem_cons_of_mem _ h)

/-! ## Lexicographic-order lemmas -/

theorem lexLe_refl (l : List Char) : lexLe l l = true := by
  induction l with
  | nil => rfl
  | cons a as ih => simp [lexLe, ih]

theorem lexLe_total (a b : List Char) : lexLe a b = true ∨ lexLe b a = true := by
  induction a generalizing b with
  | nil => exact Or.inl rfl
  | cons x xs ih =>
      cases b with
      | nil => exact Or.inr rfl
      | cons y ys =>
          by_cases hxy : x = y
          · subst hxy
            rcases ih ys with h | h
            · exact Or.inl (by simp [lexLe, h])
            · exact Or.inr (by simp [lexLe, h])
          · rcases lt_or_gt_of_ne hxy with h | h
            · exact Or.inl (by simp [lexLe, hxy, h])
            · exact Or.inr (by simp [lexLe, Ne.symm hxy, h])

theorem lexLe_trans (a b c : List Char) (hab : lexLe a b = true)
    (hbc : lexLe b c = true) : lexLe a c = true := by
  induction a generalizing b c with
  | nil => rfl
  | cons x xs ih =>
      cases b with
      | nil => simp [lexLe] at hab
      | cons y ys =>
          cases c with
          | nil => simp [lexLe] at hbc
          | cons z zs =>
              by_cases hxy : x = y <;> by_cases hyz : y = z
              · subst hxy; subst hyz
                simp only [lexLe, if_pos rfl] at hab hbc ⊢
                exact ih ys zs hab hbc
              · subst hxy
                simp only [lexLe, if_pos rfl] at hab
                simp only [lexLe, if_neg hyz] at hbc
                simp [lexLe, hyz, hbc]
              · subst hyz
                simp only [lexLe, if_neg hxy] at hab
                simp [lexLe, hxy, hab]
              · simp only [lexLe, if_neg hxy] at hab
                simp only [lexLe, if_neg hyz] at hbc
                have hab' : x < y := of_decide_eq_true hab
                have hbc' : y < z := of_decide_eq_true hbc
                have hxz : x < z := lt_trans hab' hbc'
                simp [lexLe, ne_of_lt hxz, hxz]

theorem lexLe_antisymm (a b : List Char) (hab : lexLe a b = true)
    (hba : lexLe b a = true) : a = b := by
  induction a generalizing b with
  | nil =>
      cases b with
      | nil => rfl
      | cons y ys => simp [lexLe] at hba
  | cons x xs ih =>
      cases b with
      | nil => simp [lexLe] at hab
      | cons y ys =>
          by_cases hxy : x = y
          · subst hxy
            simp only [lexLe, if_pos rfl] at hab hba
            rw [ih ys hab hba]
          · simp only [lexLe, if_neg hxy] at hab
            simp only [lexLe, if_neg (Ne.symm hxy)] at hba
            exact absurd (of_decide_eq_true hba) (lt_asymm (of_decide_eq_true hab))

instance : DecidableRel SLe := fun a b =>
  inferInstanceAs (Decidable (strLeb a b = true))

instance : IsTotal String SLe :=
  ⟨fun a b => lexLe_total a.data b.data⟩

instance : IsTrans String SLe :=
  ⟨fun a b c => lexLe_trans a.data b.data c.data⟩

instance : IsAntisymm String SLe :=
  ⟨fun a b hab hba => by
    have h := lexLe_antisymm a.data b.data hab hba
    cases a
    cases b
    exact congrArg String.mk h⟩

theorem SLe_refl (a : String) : SLe a a := lexLe_refl a.data

/-! ## Insertion-sort lemmas -/

theorem insertLe_perm (x : String) (l : List String) :
    List.Perm (insertLe x l) (x :: l) := by
  induction l with
  | nil => exact List.Perm.refl _
  | cons y ys ih =>
      by_cases h : strLeb x y
      · rw [insertLe, if_pos h]
      · rw [insertLe, if_neg h]
        exact (List.Perm.cons y ih).trans (List.Perm.swap x y ys)

theorem mem_insertLe (x z : String) (l : List String) :
    z ∈ insertLe x l ↔ z = x ∨ z ∈ l := by
  rw [(insertLe_perm x l).mem_iff]
  simp

theorem insertLe_sorted (x : String) (l : List String)
    (h : List.Sorted SLe l) : List.Sorted SLe (insertLe x l) := by
  induction l with
  | nil => simp [insertLe, List.Sorted]
  | cons y ys ih =>
      rw [List.sorted_cons] at h
      by_cases hxy : strLeb x y
      · simp only [insertLe, if_pos hxy]
        rw [List.sorted_cons]
        refine ⟨?_, List.sorted_cons.mpr h⟩
        intro b hb
        rcases List.mem_cons.mp hb with hb | hb
        · exact hb ▸ hxy
        · exact lexLe_trans _ _ _ hxy (h.1 b hb)
      · simp only [insertLe, if_neg hxy]
        rw [List.sorted_cons]
        refine ⟨?_, ih h.2⟩
        intro b hb
        rcases (mem_insertLe x b ys).mp hb with hb | hb
        · subst hb
          rcases lexLe_total b.data y.data with hh | hh
          · exact absurd hh hxy
          · exact hh
        · exact h.1 b hb

theorem sortLe_perm (l : List String) : List.Perm (sortLe l) l := by
  induction l with
  | nil => exact List.Perm.refl _
  | cons x xs ih =>
      show List.Perm (insertLe x (sortLe xs)) (x :: xs)
      exact (insertLe_perm x (sortLe xs)).trans (List.Perm.cons x ih)

theorem sortLe_sorted (l : List String) : List.Sorted SLe (sortLe l) := by
  induction l with
  | nil => simp [sortLe, List.Sorted]
  | cons x xs ih => exact insertLe_sorted x (sortLe xs) ih

theorem insertLe_of_sorted_cons (x : String) (l : List String)
    (h : List.Sorted SLe (x :: l)) : insertLe x l = x :: l := by
  cases l with
  | nil => rfl
  | cons y ys =>
      rw [List.sorted_cons] at h
      have hxy : strLeb x y = true := h.1 y (List.mem_cons_self y ys)
      simp [insertLe, hxy]

theorem sortLe_eq_self (l : List String) (h : List.Sorted SLe l) :
    sortLe l = l := by
  induction l with
  | nil => rfl
  | cons x xs ih =>
      show insertLe x (sortLe xs) = x :: xs
      rw [ih (List.sorted_cons.mp h).2]
      exact insertLe_of_sorted_cons x xs h

theorem sorted_nodup_ext (l₁ l₂ : List String) (s₁ : List.Sorted SLe l₁)
    (s₂ : List.Sorted SLe l₂) (n₁ : l₁.Nodup) (n₂ : l₂.Nodup)
    (hm : ∀ x, x ∈ l₁ ↔ x ∈ l₂) : l₁ = l₂ := by
  have hp : List.Perm l₁ l₂ := (List.perm_ext_iff_of_nodup n₁ n₂).mpr hm
  exact List.eq_of_perm_of_sorted hp s₁ s₂

/-! ## pySortedSet lemmas -/

theorem mem_pySortedSet (x : String) (l : List String) :
    x ∈ pySortedSet l ↔ x ∈ l := by
  unfold pySortedSet
  rw [(sortLe_perm l.dedup).mem_iff, List.mem_dedup]

theorem pySortedSet_sorted (l : List String) :
    List.Sorted SLe (pySortedSet l) := sortLe_sorted l.dedup

theorem pySortedSet_nodup (l : List String) : (pySortedSet l).Nodup :=
  (sortLe_perm l.dedup).nodup_iff.mpr (List.nodup_dedup l)

theorem pySortedSet_eq_self (l : List String) (hs : List.Sorted SLe l)
    (hn : l.Nodup) : pySortedSet l = l := by
  unfold pySortedSet
  rw [List.dedup_eq_self.mpr hn, sortLe_eq_self l hs]

theorem pySortedSet_ext (l₁ l₂ : List String)
    (hm : ∀ x, x ∈ l₁ ↔ x ∈ l₂) : pySortedSet l₁ = pySortedSet l₂ :=
  sorted_nodup_ext _ _ (pySortedSet_sorted l₁) (pySortedSet_sorted l₂)
    (pySortedSet_nodup l₁) (pySortedSet_nodup l₂)
    (fun x => by rw [mem_pySortedSet, mem_pySortedSet]; exact hm x)

/-! ## Strip and lower lemmas -/

theorem dropWhile_idem (p : Char → Bool) (l : List Char) :
    (l.dropWhile p).dropWhile p = l.dropWhile p := by
  induction l with
  | nil => rfl
  | cons a as ih =>
      by_cases h : p a
      · simp [List.dropWhile_cons, h, ih]
      · simp [List.dropWhile_cons, h]

theorem dropWhile_suffix_decomp (p : Char → Bool) (l : List Char) :
    ∃ s, l = s ++ l.dropWhile p := by
  induction l with
  | nil => exact ⟨[], rfl⟩
  | cons a as ih =>
      by_cases h : p a
      · obtain ⟨s, hs⟩ := ih
        exact ⟨a :: s, by simp [List.dropWhile_cons, h, ← hs]⟩
      · exact ⟨[], by simp [List.dropWhile_cons, h]⟩

theorem dropWhile_length_le (p : Char → Bool) (l : List Char) :
    (l.dropWhile p).length ≤ l.length := by
  induction l with
  | nil => exact Nat.le_refl _
  | cons a as ih =>
      by_cases h : p a
      · rw [List.dropWhile_cons, if_pos h]
        exact Nat.le_trans ih (Nat.le_succ _)
      · rw [List.dropWhile_cons, if_neg h]

theorem dropWhile_head_false (p : Char → Bool) (c : Char) (t : List Char)
    (h : (c :: t).dropWhile p = c :: t) : p c = false := by
  by_cases hc : p c
  · rw [List.dropWhile_cons, if_pos hc] at h
    have h1 := dropWhile_length_le p t
    have hlen := congrArg List.length h
    simp at hlen
    omega
  · simpa using hc

theorem dropWhile_eq_self_append (p : Char → Bool) (a b : List Char)
    (h : (a ++ b).dropWhile p = a ++ b) : a.dropWhile p = a := by
  cases a with
  | nil => rfl
  | cons c t =>
      have hc : p c = false := dropWhile_head_false p c (t ++ b) (by simpa using h)
      simp [List.dropWhile_cons, hc]

theorem stripList_front (l : List Char) :
    (stripList l).dropWhile pyWSChar = stripList l := by
  unfold stripList
  set A := l.dropWhile pyWSChar with hA
  have hAi : A.dropWhile pyWSChar = A := by rw [hA]; exact dropWhile_idem _ _
  obtain ⟨s, hs⟩ := dropWhile_suffix_decomp pyWSChar A.reverse
  set B := A.reverse.dropWhile pyWSChar with hB
  have hAB : A = B.reverse ++ s.reverse := by
    have := congrArg List.reverse hs
    simpa [List.reverse_append] using this
  rw [hAB] at hAi
  exact dropWhile_eq_self_append pyWSChar B.reverse s.reverse hAi

theorem stripList_back (l : List Char) :
    (stripList l).reverse.dropWhile pyWSChar = (stripList l).reverse := by
  unfold stripList
  rw [List.reverse_reverse]
  exact dropWhile_idem _ _

theorem stripList_idem (l : List Char) : stripList (stripList l) = stripList l := by
  conv_lhs => rw [stripList, stripList_front l, stripList_back l, List.reverse_reverse]

theorem pyStrip_idem (s : String) : pyStrip (pyStrip s) = pyStrip s := by
  unfold pyStrip
  exact congrArg String.mk (stripList_idem s.data)

theorem pyWSChar_pyLowerChar (c : Char) : pyWSChar (pyLowerChar c) = pyWSChar c := by
  unfold pyLowerChar
  split <;> rfl

theorem dropWhile_map_lower (l : List Char) :
    (l.map pyLowerChar).dropWhile pyWSChar = (l.dropWhile pyWSChar).map pyLowerChar := by
  induction l with
  | nil => rfl
  | cons a as ih =>
      by_cases h : pyWSChar a
      · have h' : pyWSChar (pyLowerChar a) = true := by rw [pyWSChar_pyLowerChar]; exact h
        simp [List.dropWhile_cons, h, h', ih]
      · have h' : pyWSChar (pyLowerChar a) = false := by
          rw [pyWSChar_pyLowerChar]; simpa using h
        simp [List.dropWhile_cons, h, h']

theorem stripList_map_lower (l : List Char) :
    stripList (l.map pyLowerChar) = (stripList l).map pyLowerChar := by
  unfold stripList
  rw [dropWhile_map_lower, ← List.map_reverse, dropWhile_map_lower, ← List.map_reverse]

theorem pyStrip_pyLower (s : String) :
    pyStrip (pyLower s) = pyLower (pyStrip s) := by
  unfold pyStrip pyLower
  exact congrArg String.mk (stripList_map_lower s.data)

theorem pyStrip_lower_strip (g : String) :
    pyStrip (pyLower (pyStrip g)) = pyLower (pyStrip g) := by
  rw [pyStrip_pyLower, pyStrip_idem]

/-! ## Canonical-value lemmas -/

theorem canonList_nil : CanonList [] :=
  ⟨fun x hx => absurd hx (List.not_mem_nil x), List.Pairwise.nil, List.nodup_nil⟩

theorem map_strip_self (l : List String) (h : ∀ x ∈ l, pyStrip x = x) :
    l.map pyStrip = l := by
  induction l with
  | nil => rfl
  | cons a as ih =>
      rw [List.map_cons, h a (List.mem_cons_self a as),
          ih (fun x hx => h x (List.mem_cons_of_mem a hx))]

theorem canonList_pySortedSet (l : List String)
    (h : ∀ x ∈ l, pyStrip x = x) : CanonList (pySortedSet l) :=
  ⟨fun x hx => h x ((mem_pySortedSet x l).mp hx), pySortedSet_sorted l,
   pySortedSet_nodup l⟩

theorem canonList_pySortedSet_map_strip (m : List String) :
    CanonList (pySortedSet (m.map pyStrip)) := by
  refine canonList_pySortedSet _ ?_
  intro x hx
  obtain ⟨y, _, hy⟩ := List.mem_map.mp hx
  rw [← hy, pyStrip_idem]

theorem canonList_id (l : List String) (h : CanonList l) :
    pySortedSet (l.map pyStrip) = l := by
  rw [map_strip_self l h.1]
  exact pySortedSet_eq_self l h.2.1 h.2.2

theorem canonList_filter (l : List String) (q : String → Bool)
    (h : CanonList l) : CanonList (l.filter q) :=
  ⟨fun x hx => h.1 x (List.mem_of_mem_filter hx),
   List.Pairwise.sublist (List.filter_sublist l) h.2.1,
   List.Nodup.filter q h.2.2⟩

/-! ## normalizeUsers and table lemmas -/

theorem normalizeUsers_canon (j : Json) : CanonList (normalizeUsers j) := by
  cases j with
  | arr us =>
      show CanonList (pySortedSet (us.map fun u => pyStrip (pyStrFn u)))
      refine canonList_pySortedSet _ ?_
      intro x hx
      obtain ⟨y, _, hy⟩ := List.mem_map.mp hx
      rw [← hy, pyStrip_idem]
  | null => exact canonList_nil
  | bool b => exact canonList_nil
  | num n => exact canonList_nil
  | str s => exact canonList_nil
  | obj kvs => exact canonList_nil

theorem normalizeUsers_encode (l : List String) :
    normalizeUsers (.arr (l.map .str)) = pySortedSet (l.map pyStrip) := by
  show pySortedSet ((l.map Json.str).map fun u => pyStrip (pyStrFn u)) = _
  rw [List.map_map]
  rfl

theorem qget_map_values (T : List (String × List String)) (k : String)
    (F : List String → List String) :
    qget (T.map fun kv => (kv.1, F kv.2)) k = (qget T k).map F := by
  induction T with
  | nil => rfl
  | cons kv rest ih =>
      obtain ⟨k', v'⟩ := kv
      by_cases h : k' = k <;> simp [qget, h, ih]

/-! ## saveNormalize lemmas -/

theorem saveNormalize_aux (Q acc : List (String × List String))
    (hk : ∀ kv ∈ Q, pyStrip kv.1 = kv.1)
    (hnd : (acc.map Prod.fst ++ Q.map Prod.fst).Nodup) :
    Q.foldl (fun a kv => qset a (pyStrip kv.1) (pySortedSet (kv.2.map pyStrip))) acc =
      acc ++ Q.map fun kv => (kv.1, pySortedSet (kv.2.map pyStrip)) := by
  induction Q generalizing acc with
  | nil => simp
  | cons kv rest ih =>
      obtain ⟨k, v⟩ := kv
      have hks : pyStrip k = k := hk (k, v) (List.mem_cons_self _ _)
      have hkm : k ∉ acc.map Prod.fst := by
        rw [List.nodup_append] at hnd
        intro hmem
        exact hnd.2.2 hmem (by simp)
      rw [List.foldl_cons]
      have hstep : qset acc (pyStrip (k, v).1) (pySortedSet ((k, v).2.map pyStrip)) =
          acc ++ [(k, pySortedSet (v.map pyStrip))] := by
        rw [show pyStrip (k, v).1 = k from hks]
        exact qset_of_not_mem acc k _ hkm
      rw [hstep, ih (acc ++ [(k, pySortedSet (v.map pyStrip))])
            (fun kv hkv => hk kv (List.mem_cons_of_mem _ hkv))
            (by simpa [List.append_assoc] using hnd)]
      simp

theorem saveNormalize_eq_map (Q : List (String × List String))
    (hk : ∀ kv ∈ Q, pyStrip kv.1 = kv.1) (hnd : (Q.map Prod.fst).Nodup) :
    saveNormalize Q = Q.map fun kv => (kv.1, pySortedSet (kv.2.map pyStrip)) := by
  have h := saveNormalize_aux Q [] hk (by simpa using hnd)
  simpa [saveNormalize] using h

theorem saveNormalize_canonical (Q : List (String × List String))
    (hk : ∀ kv ∈ Q, pyStrip kv.1 = kv.1) (hnd : (Q.map Prod.fst).Nodup)
    (hv : ∀ kv ∈ Q, CanonList kv.2) : saveNormalize Q = Q := by
  rw [saveNormalize_eq_map Q hk hnd]
  have : ∀ kv ∈ Q, (fun kv : String × List String =>
      (kv.1, pySortedSet (kv.2.map pyStrip))) kv = id kv := by
    intro kv hkv
    have := canonList_id kv.2 (hv kv hkv)
    simp [this]
  rw [List.map_congr_left this, List.map_id]

theorem saveNormalize_values_aux (Q acc : List (String × List String))
    (hacc : ∀ kv ∈ acc, CanonList kv.2) :
    ∀ kv ∈ Q.foldl (fun a kv => qset a (pyStrip kv.1) (pySortedSet (kv.2.map pyStrip))) acc,
      CanonList kv.2 := by
  induction Q generalizing acc with
  | nil => exact hacc
  | cons kv₀ rest ih =>
      intro kv hkv
      refine ih (qset acc (pyStrip kv₀.1) (pySortedSet (kv₀.2.map pyStrip))) ?_ kv hkv
      intro kv' hkv'
      rcases qset_mem _ _ _ _ hkv' with h | h
      · rw [h]
        exact canonList_pySortedSet_map_strip kv₀.2
      · exact hacc kv' h

theorem saveNormalize_values (Q : List (String × List String)) :
    ∀ kv ∈ saveNormalize Q, CanonList kv.2 :=
  saveNormalize_values_aux Q [] (fun kv hkv => absurd hkv (List.not_mem_nil kv))

/-! ## get_queues / save_queues characterizations -/

theorem get_queues_of_missing (fs : FS) (h : fs QUEUES_PATH = none) :
    get_queues fs = ([], write_json fs QUEUES_PATH (.obj [])) := by
  unfold get_queues read_json
  rw [h]
  rfl

theorem get_queues_of_corrupt (fs : FS) (h : fs QUEUES_PATH = some .corrupt) :
    get_queues fs = ([], fs) := by
  unfold get_queues read_json
  rw [h]
  rfl

theorem get_queues_of_obj (fs : FS) (items : List (String × Json))
    (h : fs QUEUES_PATH = some (.good (.obj items))) :
    get_queues fs = (items.map fun kv => (kv.1, normalizeUsers kv.2), fs) := by
  unfold get_queues read_json
  rw [h]

theorem get_queues_snd_of_present (fs : FS) (c : FileContent)
    (h : fs QUEUES_PATH = some c) : (get_queues fs).2 = fs := by
  unfold get_queues read_json
  rw [h]
  cases c with
  | corrupt => rfl
  | good j => cases j <;> rfl

theorem get_queues_values_canon (fs : FS) :
    ∀ kv ∈ (get_queues fs).1, CanonList kv.2 := by
  intro kv hkv
  unfold get_queues read_json at hkv
  rcases hfs : fs QUEUES_PATH with _ | c
  · rw [hfs] at hkv
    simp at hkv
  · rw [hfs] at hkv
    cases c with
    | corrupt => simp at hkv
    | good j =>
        cases j with
        | obj items =>
            simp only [List.mem_map] at hkv
            obtain ⟨kv₀, _, hkv₀⟩ := hkv
            rw [← hkv₀]
            exact normalizeUsers_canon kv₀.2
        | null => simp at hkv
        | bool b => simp at hkv
        | num n => simp at hkv
        | str s => simp at hkv
        | arr l => simp at hkv

theorem get_queues_of_good_nonobj (fs : FS) (j : Json)
    (h : fs QUEUES_PATH = some (.good j)) (hj : ∀ items, j ≠ .obj items) :
    get_queues fs = ([], fs) := by
  unfold get_queues read_json
  rw [h]
  cases j with
  | obj items => exact absurd rfl (hj items)
  | null => rfl
  | bool b => rfl
  | num n => rfl
  | str s => rfl
  | arr l => rfl

theorem get_queues_keys_canon (fs : FS) (hc : QueuesKeysCanon fs) :
    (∀ kv ∈ (get_queues fs).1, pyStrip kv.1 = kv.1) ∧
      ((get_queues fs).1.map Prod.fst).Nodup := by
  unfold QueuesKeysCanon at hc
  rcases hfs : fs QUEUES_PATH with _ | c
  · rw [get_queues_of_missing fs hfs]
    exact ⟨by simp, by simp⟩
  · rw [hfs] at hc
    cases c with
    | corrupt =>
        rw [get_queues_of_corrupt fs hfs]
        exact ⟨by simp, by simp⟩
    | good j =>
        cases j with
        | obj items =>
            rw [get_queues_of_obj fs items hfs]
            refine ⟨?_, ?_⟩
            · intro kv hkv
              simp only [List.mem_map] at hkv
              obtain ⟨kv₀, hkv₀, hkveq⟩ := hkv
              rw [← hkveq]
              exact hc.1 kv₀ hkv₀
            · have hmm : ((items.map fun kv => (kv.1, normalizeUsers kv.2)).map Prod.fst :
                  List String) = items.map Prod.fst := by
                rw [List.map_map]
                rfl
              show ((items.map fun kv => (kv.1, normalizeUsers kv.2)).map Prod.fst).Nodup
              rw [hmm]
              exact hc.2
        | null => rw [get_queues_of_good_nonobj fs _ hfs (by intro a h; cases h)]
                  exact ⟨by simp, by simp⟩
        | bool b => rw [get_queues_of_good_nonobj fs _ hfs (by intro a h; cases h)]
                    exact ⟨by simp, by simp⟩
        | num n => rw [get_queues_of_good_nonobj fs _ hfs (by intro a h; cases h)]
                   exact ⟨by simp, by simp⟩
        | str s => rw [get_queues_of_good_nonobj fs _ hfs (by intro a h; cases h)]
                   exact ⟨by simp, by simp⟩
        | arr l => rw [get_queues_of_good_nonobj fs _ hfs (by intro a h; cases h)]
                   exact ⟨by simp, by simp⟩

theorem get_queues_write_canonical (fs : FS) (A : List (String × List String))
    (hv : ∀ kv ∈ A, CanonList kv.2) :
    get_queues (write_json fs QUEUES_PATH (encodeQueues A)) =
      (A, write_json fs QUEUES_PATH (encodeQueues A)) := by
  have hfile : write_json fs QUEUES_PATH (encodeQueues A) QUEUES_PATH =
      some (.good (.obj (A.map fun kv => (kv.1, .arr (kv.2.map .str))))) :=
    write_json_get_self fs QUEUES_PATH (encodeQueues A)
  rw [get_queues_of_obj _ _ hfile]
  refine Prod.ext ?_ rfl
  show ((A.map fun kv => (kv.1, Json.arr (kv.2.map .str))).map
      fun kv => (kv.1, normalizeUsers kv.2)) = A
  rw [List.map_map]
  have hcong : ∀ kv ∈ A, ((fun kv : String × Json => (kv.1, normalizeUsers kv.2)) ∘
      fun kv : String × List String => (kv.1, Json.arr (kv.2.map .str))) kv = id kv := by
    intro kv hkv
    show (kv.1, normalizeUsers (Json.arr (kv.2.map .str))) = kv
    rw [normalizeUsers_encode, canonList_id kv.2 (hv kv hkv)]
  rw [List.map_congr_left hcong, List.map_id]

theorem qget_mem (T : List (String × List String)) (k : String)
    (v : List String) (h : qget T k = some v) : (k, v) ∈ T := by
  induction T with
  | nil => simp [qget] at h
  | cons kv rest ih =>
      obtain ⟨k', v'⟩ := kv
      by_cases h0 : k' = k
      · subst h0
        have h' : v' = v := by simpa [qget] using h
        subst h'
        exact List.mem_cons_self _ _
      · simp only [qget, if_neg h0] at h
        exact List.mem_cons_of_mem _ (ih h)

theorem encodeQueues_keys (A : List (String × List String)) :
    ((A.map fun kv => (kv.1, Json.arr (kv.2.map .str))).map Prod.fst :
      List String) = A.map Prod.fst := by
  rw [List.map_map]
  rfl

/-! ## get_live_stats / update_live_stats characterizations -/

theorem get_live_stats_of_missing (fs : FS) (h : fs LIVE_STATS_PATH = none) :
    get_live_stats fs = ([], write_json fs LIVE_STATS_PATH (.obj [])) := by
  unfold get_live_stats read_json
  rw [h]

theorem get_live_stats_of_obj (fs : FS) (items : List (String × Json))
    (h : fs LIVE_STATS_PATH = some (.good (.obj items))) :
    get_live_stats fs = (items, fs) := by
  unfold get_live_stats read_json
  rw [h]

theorem update_live_stats_eq (fs : FS) (upd : List (String × Json)) :
    update_live_stats fs upd =
      (dictUpdate (get_live_stats fs).1 upd,
       write_json (get_live_stats fs).2 LIVE_STATS_PATH
         (.obj (dictUpdate (get_live_stats fs).1 upd))) := rfl

theorem update_then_read (fs : FS) (upd : List (String × Json)) :
    get_live_stats ((update_live_stats fs upd).2) =
      (dictUpdate (get_live_stats fs).1 upd, (update_live_stats fs upd).2) := by
  have h2 : (update_live_stats fs upd).2 =
      write_json (get_live_stats fs).2 LIVE_STATS_PATH
        (.obj (dictUpdate (get_live_stats fs).1 upd)) := rfl
  rw [h2]
  exact get_live_stats_of_obj _ _ (write_json_get_self _ _ _)

/-! ## add_to_queue characterization -/

theorem add_spec (fs : FS) (g u : String) (hc : QueuesKeysCanon fs) :
    add_to_queue fs g u =
      write_json (get_queues fs).2 QUEUES_PATH
        (encodeQueues (qset (get_queues fs).1 (pyLower (pyStrip g))
          (pySortedSet ((qget (get_queues fs).1 (pyLower (pyStrip g))).getD []
            ++ [pyStrip u])))) ∧
    get_queues (add_to_queue fs g u) =
      (qset (get_queues fs).1 (pyLower (pyStrip g))
        (pySortedSet ((qget (get_queues fs).1 (pyLower (pyStrip g))).getD []
          ++ [pyStrip u])),
       add_to_queue fs g u) ∧
    QueuesKeysCanon (add_to_queue fs g u) := by
  set gk := pyLower (pyStrip g) with hgk
  set uk := pyStrip u with huk
  set T := (get_queues fs).1 with hT
  set users := (qget T gk).getD [] with husers
  set V := pySortedSet (users ++ [uk]) with hV
  set A := qset T gk V with hA
  have hkeys := get_queues_keys_canon fs hc
  have hgkstrip : pyStrip gk = gk := pyStrip_lower_strip g
  have hukstrip : pyStrip uk = uk := pyStrip_idem u
  have husersC : CanonList users := by
    rcases hq : qget T gk with _ | us
    · rw [husers, hq]
      exact canonList_nil
    · rw [husers, hq]
      exact get_queues_values_canon fs (gk, us) (qget_mem T gk us hq)
  have hVC : CanonList V := by
    refine canonList_pySortedSet _ ?_
    intro x hx
    rcases List.mem_append.mp hx with hx | hx
    · exact husersC.1 x hx
    · rw [List.mem_singleton.mp hx]
      exact hukstrip
  have hAkeysS : ∀ kv ∈ A, pyStrip kv.1 = kv.1 := by
    intro kv hkv
    rcases qset_mem _ _ _ _ hkv with h | h
    · rw [h]
      exact hgkstrip
    · exact hkeys.1 kv h
  have hAkeysN : (A.map Prod.fst).Nodup := by
    by_cases hmem : gk ∈ T.map Prod.fst
    · rw [hA, qset_map_fst_mem T gk V hmem]
      exact hkeys.2
    · rw [hA, qset_of_not_mem T gk V hmem]
      simp only [List.map_append]
      rw [List.nodup_append]
      exact ⟨hkeys.2, List.nodup_singleton gk, by
        intro a ha hb
        simp at hb
        exact hmem (hb ▸ ha)⟩
  have hAvals : ∀ kv ∈ A, CanonList kv.2 := by
    intro kv hkv
    rcases qset_mem _ _ _ _ hkv with h | h
    · rw [h]
      exact hVC
    · exact get_queues_values_canon fs kv h
  have hsave : saveNormalize A = A := saveNormalize_canonical A hAkeysS hAkeysN hAvals
  have hadd : add_to_queue fs g u =
      write_json (get_queues fs).2 QUEUES_PATH (encodeQueues A) := by
    show save_queues (get_queues fs).2 A =
      write_json (get_queues fs).2 QUEUES_PATH (encodeQueues A)
    unfold save_queues
    rw [show saveNormalize A = A from hsave]
  have hfile : add_to_queue fs g u QUEUES_PATH = some (.good (encodeQueues A)) := by
    rw [hadd]
    exact write_json_get_self _ _ _
  refine ⟨hadd, ?_, ?_⟩
  · rw [hadd]
    exact get_queues_write_canonical (get_queues fs).2 A hAvals
  · unfold QueuesKeysCanon
    rw [hfile]
    refine ⟨?_, ?_⟩
    · intro kv hkv
      simp only [List.mem_map] at hkv
      obtain ⟨kv₀, hkv₀, hkveq⟩ := hkv
      rw [← hkveq]
      exact hAkeysS kv₀ hkv₀
    · rw [encodeQueues_keys]
      exact hAkeysN

/-! ## init_seed_files lemmas -/

theorem read_json_snd (fs : FS) (path : String) (default : Json) :
    (read_json fs path default).2 = fs ∨
      (read_json fs path default).2 = write_json fs path default := by
  unfold read_json
  rcases fs path with _ | c
  · exact Or.inr rfl
  · cases c with
    | good j => exact Or.inl rfl
    | corrupt => exact Or.inl rfl

theorem init_seed_queues_live (fs : FS) :
    init_seed_queues fs LIVE_STATS_PATH = fs LIVE_STATS_PATH := by
  have h1 : LIVE_STATS_PATH ≠ QUEUES_PATH := by decide
  have h2 : LIVE_STATS_PATH ≠ QUEUES_PATH ++ ".tmp" := by decide
  unfold init_seed_queues
  rcases hq : fs QUEUES_PATH with _ | c
  · exact write_json_get_other fs QUEUES_PATH (.obj []) LIVE_STATS_PATH h1 h2
  · have hsnd := read_json_snd fs QUEUES_PATH (.obj [])
    rcases hjr : read_json fs QUEUES_PATH (.obj []) with ⟨j, fs1⟩
    rw [hjr] at hsnd
    have hfs1 : fs1 LIVE_STATS_PATH = fs LIVE_STATS_PATH := by
      rcases hsnd with hr | hr
      · rw [show fs1 = fs from hr]
      · rw [show fs1 = write_json fs QUEUES_PATH (.obj []) from hr]
        exact write_json_get_other fs QUEUES_PATH (.obj []) LIVE_STATS_PATH h1 h2
    cases j with
    | obj items => exact hfs1
    | null =>
        exact (write_json_get_other fs1 QUEUES_PATH (.obj []) LIVE_STATS_PATH h1 h2).trans hfs1
    | bool b =>
        exact (write_json_get_other fs1 QUEUES_PATH (.obj []) LIVE_STATS_PATH h1 h2).trans hfs1
    | num n =>
        exact (write_json_get_other fs1 QUEUES_PATH (.obj []) LIVE_STATS_PATH h1 h2).trans hfs1
    | str s =>
        exact (write_json_get_other fs1 QUEUES_PATH (.obj []) LIVE_STATS_PATH h1 h2).trans hfs1
    | arr l =>
        exact (write_json_get_other fs1 QUEUES_PATH (.obj []) LIVE_STATS_PATH h1 h2).trans hfs1

theorem init_seed_live_of_missing (envUsername : String) (fs : FS)
    (h : fs LIVE_STATS_PATH = none) :
    init_seed_live envUsername fs =
      write_json fs LIVE_STATS_PATH (default_stats envUsername) := by
  unfold init_seed_live
  rw [h]

/-! ## Claim theorems -/

theorem dirname_tmp (path : String) :
    pyDirname (path ++ ".tmp") = pyDirname path := by
  unfold pyDirname dirnameList
  have hdata : (path ++ ".tmp").data = path.data ++ ['.', 't', 'm', 'p'] := by
    rw [String.data_append]
  rw [hdata, List.reverse_append]
  have hdrop : ((['.', 't', 'm', 'p'].reverse ++ path.data.reverse).dropWhile
      (· ≠ '/') : List Char) = path.data.reverse.dropWhile (· ≠ '/') := by
    simp [List.dropWhile_cons]
  rw [hdrop]

/-- C2: `write_json` serializes the full document to the temporary path
`path + ".tmp"` in the same directory, then performs a single atomic rename
onto `path`.  A write interrupted before the rename (only the temp phase ran)
leaves the prior document intact, and the next read returns the old content;
the completed write makes a read return the new content. -/
theorem C2_atomic_write (fs : FS) (path : String) (data default j : Json)
    (h : fs path = some (.good j)) :
    pyDirname (path ++ ".tmp") = pyDirname path ∧
    write_json_tmpPhase fs path data path = some (.good j) ∧
    (read_json (write_json_tmpPhase fs path data) path default).1 = j ∧
    write_json fs path data path = some (.good data) ∧
    (read_json (write_json fs path data) path default).1 = data := by
  have htmp : write_json_tmpPhase fs path data path = some (.good j) := by
    rw [tmpPhase_target]
    exact h
  refine ⟨dirname_tmp path, htmp, ?_, write_json_get_self fs path data, ?_⟩
  · unfold read_json
    rw [htmp]
  · unfold read_json
    rw [write_json_get_self]

/-- C2 witness: a concrete store with one parseable document, the
interrupted and the completed write evaluated on it. -/
theorem C2_atomic_write_witness :
    fsC2ex "data/x.json" = some (.good (.num 1)) ∧
    (read_json (write_json_tmpPhase fsC2ex "data/x.json" (.num 2)) "data/x.json"
      (.obj [])).1 = .num 1 ∧
    (read_json (write_json fsC2ex "data/x.json" (.num 2)) "data/x.json"
      (.obj [])).1 = .num 2 := by
  refine ⟨rfl, ?_, ?_⟩
  · exact (C2_atomic_write fsC2ex "data/x.json" (.num 2) (.obj []) (.num 1) rfl).2.2.1
  · exact (C2_atomic_write fsC2ex "data/x.json" (.num 2) (.obj []) (.num 1) rfl).2.2.2.2

/-- C5 counterexample: with no snapshot document on disk, `get_live_stats`
returns the empty document `{}` — which has no `connected`, `viewers`, … keys
at all — and persists `{}`, not the documented default snapshot. -/
theorem C5_counterexample :
    (get_live_stats fsC5ex).1 = [] ∧
    dget (get_live_stats fsC5ex).1 "connected" = none ∧
    (get_live_stats fsC5ex).2 LIVE_STATS_PATH = some (.good (.obj [])) ∧
    (Json.obj [] : Json) ≠ default_stats "" := by
  refine ⟨rfl, rfl, rfl, ?_⟩
  intro hcontra
  rw [default_stats] at hcontra
  exact absurd (Json.obj.inj hcontra) (by simp)

/-- C5 (amended): reading the Live Snapshot when no document exists returns
the empty document `{}` and persists `{}`; the documented defaults
(`connected=false`, `viewers=0`, …) are seeded by `init_seed_files` (run once
at module import), not by the read operation. -/
theorem C5_amended (fs : FS) (env : String) (h : fs LIVE_STATS_PATH = none) :
    (get_live_stats fs).1 = [] ∧
    (get_live_stats fs).2 LIVE_STATS_PATH = some (.good (.obj [])) ∧
    init_seed_files env fs LIVE_STATS_PATH = some (.good (default_stats env)) := by
  have hg := get_live_stats_of_missing fs h
  refine ⟨by rw [hg], ?_, ?_⟩
  · rw [hg]
    exact write_json_get_self fs LIVE_STATS_PATH (.obj [])
  · unfold init_seed_files
    have h1 : init_seed_queues fs LIVE_STATS_PATH = none :=
      (init_seed_queues_live fs).trans h
    rw [init_seed_live_of_missing env (init_seed_queues fs) h1]
    exact write_json_get_self _ _ _

/-- C5 witness: the amended statement evaluated on the empty store. -/
theorem C5_amended_witness :
    fsC5ex LIVE_STATS_PATH = none ∧
    (get_live_stats fsC5ex).1 = [] ∧
    init_seed_files "wavy" fsC5ex LIVE_STATS_PATH =
      some (.good (default_stats "wavy")) := by
  refine ⟨rfl, (C5_amended fsC5ex "wavy" rfl).1, (C5_amended fsC5ex "wavy" rfl).2.2⟩

/-- C1 counterexample: `update_live_stats` leaves `updated_at` at its stored
value `"A"` when the partial does not name it, whereas the spec-modelled
merge (which stamps the current instant, here `"B"`) produces `"B"` — so the
merge operation does not set `updated_at` itself. -/
theorem C1_counterexample :
    dget (update_live_stats fsC1ex [("viewers", .num 42)]).1 "updated_at" =
      some (.str "A") ∧
    dget (update_live_stats_specModelled "B" fsC1ex [("viewers", .num 42)]).1
      "updated_at" = some (.str "B") ∧
    (update_live_stats fsC1ex [("viewers", .num 42)]).1 ≠
      (update_live_stats_specModelled "B" fsC1ex [("viewers", .num 42)]).1 := by
  refine ⟨rfl, rfl, ?_⟩
  intro hcontra
  have h1 : dget (update_live_stats fsC1ex [("viewers", .num 42)]).1 "updated_at" =
      some (.str "A") := rfl
  rw [hcontra] at h1
  have h2 : dget (update_live_stats_specModelled "B" fsC1ex
      [("viewers", .num 42)]).1 "updated_at" = some (.str "B") := rfl
  rw [h1] at h2
  have h3 : Json.str "A" = Json.str "B" := Option.some.inj h2
  exact absurd (Json.str.inj h3) (by decide)

/-- C6 counterexample: `merge({viewers: 42})` followed by a read preserves
the stored `last_comment` and sets `viewers` to 42, but `updated_at` does
NOT advance — it stays at the pre-merge value `"A"` (the merge operation
never touches fields the partial does not name, `updated_at` included). -/
theorem C6_counterexample :
    dget (get_live_stats fsC6ex).1 "updated_at" = some (.str "A") ∧
    dget (get_live_stats ((update_live_stats fsC6ex [("viewers", .num 42)]).2)).1
      "last_comment" = some (.obj [("user", .str "u"), ("comment", .str "hi")]) ∧
    dget (get_live_stats ((update_live_stats fsC6ex [("viewers", .num 42)]).2)).1
      "viewers" = some (.num 42) ∧
    dget (get_live_stats ((update_live_stats fsC6ex [("viewers", .num 42)]).2)).1
      "updated_at" = some (.str "A") :=
  ⟨rfl, rfl, rfl, rfl⟩

/-- C6 (amended): the merge is sparse — a key the partial does not name reads
back unchanged after merge-then-read, and a key the partial names reads back
as the partial's value; but `updated_at` advances only when the caller puts
it in the partial (as all the ingestion-loop call sites do), not by virtue of
the merge itself. -/
theorem C6_amended (fs : FS) (upd : List (String × Json)) (k : String) :
    (k ∉ upd.map Prod.fst →
      dget (get_live_stats ((update_live_stats fs upd).2)).1 k =
        dget (get_live_stats fs).1 k) ∧
    ((upd.map Prod.fst).Nodup → ∀ v, (k, v) ∈ upd →
      dget (get_live_stats ((update_live_stats fs upd).2)).1 k = some v) := by
  have hread : (get_live_stats ((update_live_stats fs upd).2)).1 =
      dictUpdate (get_live_stats fs).1 upd := by
    rw [update_then_read]
  rw [hread]
  exact ⟨fun h => dget_dictUpdate_not_mem _ _ _ h,
         fun hnd v hm => dget_dictUpdate_mem _ _ _ _ hnd hm⟩

/-- C6 witness: the amended statement evaluated on a concrete snapshot and
the merge `{viewers: 42}` of the claim's own example. -/
theorem C6_amended_witness :
    ("last_comment" ∉ ([("viewers", Json.num 42)].map Prod.fst)) ∧
    dget (get_live_stats ((update_live_stats fsC6ex [("viewers", .num 42)]).2)).1
      "last_comment" = dget (get_live_stats fsC6ex).1 "last_comment" ∧
    dget (get_live_stats ((update_live_stats fsC6ex [("viewers", .num 42)]).2)).1
      "viewers" = some (.num 42) := by
  refine ⟨by decide, ?_, ?_⟩
  · exact (C6_amended fsC6ex [("viewers", .num 42)] "last_comment").1 (by decide)
  · exact (C6_amended fsC6ex [("viewers", .num 42)] "viewers").2 (by decide)
      (.num 42) (List.mem_cons_self _ _)

/-! ## remove_from_queue reduction lemmas -/

theorem remove_eq_absent (fs : FS) (g u : String)
    (hq : qget (get_queues fs).1 (pyLower (pyStrip g)) = none) :
    remove_from_queue fs g u = (false, (get_queues fs).2) := by
  show (match qget (get_queues fs).1 (pyLower (pyStrip g)) with
    | none => (false, (get_queues fs).2)
    | some users =>
        if pyStrip u ∈ users then
          (true, save_queues (get_queues fs).2
            (qset (get_queues fs).1 (pyLower (pyStrip g))
              (users.filter (· ≠ pyStrip u))))
        else (false, (get_queues fs).2)) = (false, (get_queues fs).2)
  rw [hq]

theorem remove_eq_notmem (fs : FS) (g u : String) (users : List String)
    (hq : qget (get_queues fs).1 (pyLower (pyStrip g)) = some users)
    (hm : pyStrip u ∉ users) :
    remove_from_queue fs g u = (false, (get_queues fs).2) := by
  show (match qget (get_queues fs).1 (pyLower (pyStrip g)) with
    | none => (false, (get_queues fs).2)
    | some users =>
        if pyStrip u ∈ users then
          (true, save_queues (get_queues fs).2
            (qset (get_queues fs).1 (pyLower (pyStrip g))
              (users.filter (· ≠ pyStrip u))))
        else (false, (get_queues fs).2)) = (false, (get_queues fs).2)
  rw [hq]
  exact if_neg hm

theorem remove_eq_mem (fs : FS) (g u : String) (users : List String)
    (hq : qget (get_queues fs).1 (pyLower (pyStrip g)) = some users)
    (hm : pyStrip u ∈ users) :
    remove_from_queue fs g u =
      (true, save_queues (get_queues fs).2
        (qset (get_queues fs).1 (pyLower (pyStrip g))
          (users.filter (· ≠ pyStrip u)))) := by
  show (match qget (get_queues fs).1 (pyLower (pyStrip g)) with
    | none => (false, (get_queues fs).2)
    | some users =>
        if pyStrip u ∈ users then
          (true, save_queues (get_queues fs).2
            (qset (get_queues fs).1 (pyLower (pyStrip g))
              (users.filter (· ≠ pyStrip u))))
        else (false, (get_queues fs).2)) = _
  rw [hq]
  exact if_pos hm

theorem get_queues_table_stable (fs : FS) :
    (get_queues ((get_queues fs).2)).1 = (get_queues fs).1 := by
  rcases hfs : fs QUEUES_PATH with _ | c
  · rw [get_queues_of_missing fs hfs]
    have h := get_queues_write_canonical fs [] (fun kv hkv => absurd hkv (List.not_mem_nil kv))
    calc (get_queues (write_json fs QUEUES_PATH (.obj []))).1 = [] := by
          rw [show (Json.obj [] : Json) = encodeQueues [] from rfl, h]
      _ = ([] : List (String × List String)) := rfl
  · rw [get_queues_snd_of_present fs c hfs]

/-- C7: `remove(category, entrant)` returns `false` without touching the
persisted table when the normalized category key is absent from the read
table or the trimmed entrant is not in it (the file itself is untouched
whenever it exists at all); otherwise — for a table whose persisted keys are
canonical, as every `save_queues`-written table is — it persists the table
with exactly that entrant filtered out of the category and returns `true`. -/
theorem C7_remove (fs : FS) (game username : String) :
    ((qget (get_queues fs).1 (pyLower (pyStrip game)) = none ∨
      pyStrip username ∉ (qget (get_queues fs).1 (pyLower (pyStrip game))).getD []) →
      (remove_from_queue fs game username).1 = false ∧
      (get_queues ((remove_from_queue fs game username).2)).1 = (get_queues fs).1 ∧
      (∀ c, fs QUEUES_PATH = some c → (remove_from_queue fs game username).2 = fs)) ∧
    (∀ users, qget (get_queues fs).1 (pyLower (pyStrip game)) = some users →
      pyStrip username ∈ users → QueuesKeysCanon fs →
      (remove_from_queue fs game username).1 = true ∧
      qget (get_queues ((remove_from_queue fs game username).2)).1
        (pyLower (pyStrip game)) = some (users.filter (· ≠ pyStrip username)) ∧
      pyStrip username ∉ users.filter (· ≠ pyStrip username)) := by
  constructor
  · intro hcase
    have hrm : remove_from_queue fs game username = (false, (get_queues fs).2) := by
      rcases hq : qget (get_queues fs).1 (pyLower (pyStrip game)) with _ | users
      · exact remove_eq_absent fs game username hq
      · rcases hcase with hc | hc
        · rw [hq] at hc
          cases hc
        · rw [hq] at hc
          exact remove_eq_notmem fs game username users hq (by simpa using hc)
    rw [hrm]
    refine ⟨rfl, get_queues_table_stable fs, ?_⟩
    intro c hfs
    exact get_queues_snd_of_present fs c hfs
  · intro users hq hm hc
    have hkeys := get_queues_keys_canon fs hc
    have hgk : (pyLower (pyStrip game), users) ∈ (get_queues fs).1 :=
      qget_mem _ _ _ hq
    have hgkmem : pyLower (pyStrip game) ∈ (get_queues fs).1.map Prod.fst :=
      List.mem_map.mpr ⟨_, hgk, rfl⟩
    have husersC : CanonList users := get_queues_values_canon fs _ hgk
    have hFC : CanonList (users.filter (· ≠ pyStrip username)) :=
      canonList_filter users _ husersC
    have hrm := remove_eq_mem fs game username users hq hm
    set A := qset (get_queues fs).1 (pyLower (pyStrip game))
      (users.filter (· ≠ pyStrip username)) with hA
    have hAkeysS : ∀ kv ∈ A, pyStrip kv.1 = kv.1 := by
      intro kv hkv
      rcases qset_mem _ _ _ _ hkv with h | h
      · rw [h]
        exact pyStrip_lower_strip game
      · exact hkeys.1 kv h
    have hAkeysN : (A.map Prod.fst).Nodup := by
      rw [hA, qset_map_fst_mem _ _ _ hgkmem]
      exact hkeys.2
    have hAvals : ∀ kv ∈ A, CanonList kv.2 := by
      intro kv hkv
      rcases qset_mem _ _ _ _ hkv with h | h
      · rw [h]
        exact hFC
      · exact get_queues_values_canon fs kv h
    have hsave : save_queues (get_queues fs).2 A =
        write_json (get_queues fs).2 QUEUES_PATH (encodeQueues A) := by
      unfold save_queues
      rw [saveNormalize_canonical A hAkeysS hAkeysN hAvals]
    rw [hrm]
    refine ⟨rfl, ?_, ?_⟩
    · show qget (get_queues (save_queues (get_queues fs).2 A)).1
        (pyLower (pyStrip game)) = some (users.filter (· ≠ pyStrip username))
      rw [hsave, get_queues_write_canonical _ A hAvals]
      exact qget_qset_self _ _ _
    · intro hmem
      rcases List.mem_filter.mp hmem with ⟨_, hne⟩
      simp at hne

/-- C7 witness: on the table `{"valorant": ["Alice", "Bob"]}`, removing from
an absent category returns `false` and leaves the store untouched; removing
`" Alice "` from `"Valorant"` returns `true` and leaves exactly `["Bob"]`. -/
theorem C7_remove_witness :
    (remove_from_queue fsC7ex "chess" "Alice").1 = false ∧
    (remove_from_queue fsC7ex "chess" "Alice").2 = fsC7ex ∧
    (remove_from_queue fsC7ex "Valorant" " Alice ").1 = true ∧
    qget (get_queues ((remove_from_queue fsC7ex "Valorant" " Alice ").2)).1
      (pyLower (pyStrip "Valorant")) =
      some (["Alice", "Bob"].filter (· ≠ pyStrip " Alice ")) := by
  have hcanon : QueuesKeysCanon fsC7ex := by
    show (∀ kv ∈ [("valorant", Json.arr [Json.str "Alice", Json.str "Bob"])],
        pyStrip kv.1 = kv.1) ∧
      (([("valorant", Json.arr [Json.str "Alice", Json.str "Bob"])].map
        Prod.fst).Nodup)
    refine ⟨?_, by decide⟩
    intro kv hkv
    rw [List.mem_singleton.mp hkv]
    rfl
  have habs := (C7_remove fsC7ex "chess" "Alice").1 (Or.inl rfl)
  have hrem := (C7_remove fsC7ex "Valorant" " Alice ").2 ["Alice", "Bob"] rfl
    (by decide) hcanon
  exact ⟨habs.1, habs.2.2 _ rfl, hrem.1, hrem.2.1⟩

/-- C8 counterexample: from the hand-crafted persisted table
`{"g": [], " g ": ["w"]}` — two keys that collide after trimming — adding
`("g", "u")` once persists `{"g": ["w"]}` (the insertion is clobbered when
`save_queues` trims `" g "` over `"g"`), while adding twice persists
`{"g": ["u", "w"]}`: the two stores differ, so add is not idempotent over
every starting table state. -/
theorem C8_counterexample :
    add_to_queue (add_to_queue fsC8ex "g" "u") "g" "u" QUEUES_PATH ≠
      add_to_queue fsC8ex "g" "u" QUEUES_PATH := by
  have h1 : add_to_queue fsC8ex "g" "u" QUEUES_PATH =
      some (.good (.obj [("g", .arr [.str "w"])])) := rfl
  have h2 : add_to_queue (add_to_queue fsC8ex "g" "u") "g" "u" QUEUES_PATH =
      some (.good (.obj [("g", .arr [.str "u", .str "w"])])) := rfl
  rw [h1, h2]
  intro hcontra
  have h3 := Json.obj.inj (FileContent.good.inj (Option.some.inj hcontra))
  have h4 := (List.cons.inj h3).1
  have h5 := Json.arr.inj (Prod.mk.inj h4).2
  exact absurd (List.cons.inj h5).2 (by simp)

/-- C8 (amended): add is idempotent from every starting state whose persisted
table keys are canonical — trimmed and pairwise distinct — which is exactly
what `save_queues` guarantees for every table the manager itself writes.
Without that proviso the hand-crafted colliding-key table above defeats it. -/
theorem C8_amended (fs : FS) (g u : String) (hc : QueuesKeysCanon fs) :
    add_to_queue (add_to_queue fs g u) g u = add_to_queue fs g u := by
  obtain ⟨hadd1, hread1, hc1⟩ := add_spec fs g u hc
  obtain ⟨hadd2, hread2, _⟩ := add_spec (add_to_queue fs g u) g u hc1
  set gk := pyLower (pyStrip g) with hgk
  set uk := pyStrip u with huk
  set T := (get_queues fs).1 with hT
  set V := pySortedSet ((qget T gk).getD [] ++ [uk]) with hV
  set A := qset T gk V with hA
  have hT1 : (get_queues (add_to_queue fs g u)).1 = A := by rw [hread1]
  have hS1 : (get_queues (add_to_queue fs g u)).2 = add_to_queue fs g u := by
    rw [hread1]
  rw [hT1, hS1] at hadd2
  have hqA : qget A gk = some V := qget_qset_self T gk V
  rw [hqA] at hadd2
  have hukV : uk ∈ V := by
    rw [hV]
    exact (mem_pySortedSet _ _).mpr (List.mem_append.mpr (Or.inr (by simp)))
  have hVV : pySortedSet ((some V).getD [] ++ [uk]) = V := by
    have hext : pySortedSet (V ++ [uk]) = pySortedSet V := by
      refine pySortedSet_ext _ _ ?_
      intro x
      constructor
      · intro hx
        rcases List.mem_append.mp hx with hx | hx
        · exact hx
        · rw [List.mem_singleton.mp hx]
          exact hukV
      · intro hx
        exact List.mem_append.mpr (Or.inl hx)
    show pySortedSet (V ++ [uk]) = V
    rw [hext, hV]
    exact pySortedSet_eq_self _ (pySortedSet_sorted _) (pySortedSet_nodup _)
  rw [hVV] at hadd2
  have hqq : qset A gk V = A := qset_eq_self A gk V hqA
  rw [hqq] at hadd2
  rw [hadd2, hadd1, write_json_write_json, ← hadd1]

/-- C8 witness: idempotence evaluated on a canonical one-category store. -/
theorem C8_amended_witness :
    QueuesKeysCanon fsC8w ∧
    add_to_queue (add_to_queue fsC8w "valorant" "Zoe") "valorant" "Zoe" =
      add_to_queue fsC8w "valorant" "Zoe" := by
  have hcanon : QueuesKeysCanon fsC8w := by
    show (∀ kv ∈ [("valorant", Json.arr [Json.str "Alice"])],
        pyStrip kv.1 = kv.1) ∧
      (([("valorant", Json.arr [Json.str "Alice"])].map Prod.fst).Nodup)
    refine ⟨?_, by decide⟩
    intro kv hkv
    rw [List.mem_singleton.mp hkv]
    rfl
  exact ⟨hcanon, C8_amended fsC8w "valorant" "Zoe" hcanon⟩

/-- C9: after any sequence of waitlist operations, every category of the
table read back through `get_queues` maps to a duplicate-free list sorted in
the code-point (lexicographic) order `SLe`, and querying an absent category
in the call sites' style yields the empty list rather than an error. -/
theorem C9_invariant (fs : FS) (ops : List QOp) :
    (∀ kv ∈ (get_queues (runQOps fs ops)).1,
      List.Sorted SLe kv.2 ∧ kv.2.Nodup) ∧
    (∀ g, qget (get_queues (runQOps fs ops)).1 (pyLower (pyStrip g)) = none →
      queue_query (runQOps fs ops) g = []) := by
  constructor
  · intro kv hkv
    have h := get_queues_values_canon (runQOps fs ops) kv hkv
    exact ⟨h.2.1, h.2.2⟩
  · intro g hq
    unfold queue_query
    rw [hq]
    rfl

/-- C9 witness: a concrete operation sequence from the empty store — the
surviving category's list is sorted and duplicate-free, and an absent
category queries as empty. -/
theorem C9_invariant_witness :
    List.Sorted SLe (("valorant", ["Alice"]) : String × List String).2 ∧
    (("valorant", ["Alice"]) : String × List String).2.Nodup ∧
    queue_query (runQOps (fun _ => none) opsC9ex) "chess" = [] := by
  have h1 := (C9_invariant (fun _ => none) opsC9ex).1 ("valorant", ["Alice"])
    (List.mem_singleton.mpr rfl)
  have h2 := (C9_invariant (fun _ => none) opsC9ex).2 "chess" rfl
  exact ⟨h1.1, h1.2, h2⟩

/-- C10: entrant matching is case-sensitive after trimming — category keys
are case-folded but entrant names are only trimmed.  Adding `e` and then
removing `e'`, where the trimmed names differ only in letter case, returns
`false` and leaves the store exactly as the add left it (provided `e'` was
not already queued in that category). -/
theorem C10_case_sensitive (fs : FS) (g e e' : String)
    (hne : pyStrip e ≠ pyStrip e')
    (_hlow : pyLower (pyStrip e) = pyLower (pyStrip e'))
    (hnotin : pyStrip e' ∉ (qget (get_queues fs).1 (pyLower (pyStrip g))).getD [])
    (hc : QueuesKeysCanon fs) :
    (remove_from_queue (add_to_queue fs g e) g e').1 = false ∧
    (remove_from_queue (add_to_queue fs g e) g e').2 = add_to_queue fs g e := by
  obtain ⟨hadd, hread, hc1⟩ := add_spec fs g e hc
  set gk := pyLower (pyStrip g) with hgk
  set T := (get_queues fs).1 with hT
  set V := pySortedSet ((qget T gk).getD [] ++ [pyStrip e]) with hV
  have hT1 : (get_queues (add_to_queue fs g e)).1 = qset T gk V := by rw [hread]
  have hS1 : (get_queues (add_to_queue fs g e)).2 = add_to_queue fs g e := by
    rw [hread]
  have hq1 : qget (get_queues (add_to_queue fs g e)).1 gk = some V := by
    rw [hT1]
    exact qget_qset_self T gk V
  have hnotV : pyStrip e' ∉ V := by
    intro hmem
    rw [hV] at hmem
    rcases List.mem_append.mp ((mem_pySortedSet _ _).mp hmem) with hx | hx
    · exact hnotin hx
    · exact hne (List.mem_singleton.mp hx).symm
  have hrm := remove_eq_notmem (add_to_queue fs g e) g e' V hq1 hnotV
  rw [hrm]
  exact ⟨rfl, hS1⟩

/-- C10 witness: from the empty store, add `"Alice"` then remove `"alice"` —
`false`, and the store is unchanged from the post-add state. -/
theorem C10_case_sensitive_witness :
    pyStrip "Alice" ≠ pyStrip "alice" ∧
    pyLower (pyStrip "Alice") = pyLower (pyStrip "alice") ∧
    (remove_from_queue (add_to_queue (fun _ => none) "valorant" "Alice")
      "valorant" "alice").1 = false := by
  refine ⟨by decide, by decide, ?_⟩
  exact (C10_case_sensitive (fun _ => none) "valorant" "Alice" "alice"
    (by decide) (by decide) (by decide) trivial).1

/-! ## Listener-trace lemmas -/

theorem handleEvent_updated (clock : Nat → String) (username : String)
    (st : SessState) (e : TEvent) (upd : List (String × Json))
    (hm : LAction.merge upd ∈ (handleEvent clock username st e).1) :
    "updated_at" ∈ upd.map Prod.fst := by
  have hlike : ∀ (st' : SessState) (lk ct : Option Json),
      LAction.merge upd ∈ (handleEvent.likeIncrement clock st' lk ct).1 →
      "updated_at" ∈ upd.map Prod.fst := by
    intro st' lk ct hmem
    unfold handleEvent.likeIncrement at hmem
    have hfin : ∀ (j : Json),
        LAction.merge upd ∈
          ((match pyIntCast j with
            | some i =>
                ([LAction.merge [("likes", Json.num (st'.likeCounter.getD 0 + i)),
                  ("updated_at", Json.str (clock st'.t))]],
                 ({ likeCounter := some (st'.likeCounter.getD 0 + i),
                    t := st'.t + 1 } : SessState))
            | none => ([], { likeCounter := some (st'.likeCounter.getD 0),
                             t := st'.t })) :
            List LAction × SessState).1 →
        "updated_at" ∈ upd.map Prod.fst := by
      intro j hj
      cases hcast : pyIntCast j <;> rw [hcast] at hj
      · simp at hj
      · simp only [List.mem_singleton, LAction.merge.injEq] at hj
        subst hj
        simp
    simp only [] at hmem
    exact hfin _ hmem
  cases e with
  | connect =>
      simp only [handleEvent, List.mem_singleton, LAction.merge.injEq] at hm
      subst hm
      simp
  | disconnect =>
      simp only [handleEvent, List.mem_singleton, LAction.merge.injEq] at hm
      subst hm
      simp
  | viewerCount vc vs =>
      simp only [handleEvent] at hm
      repeat' split at hm
      all_goals
        first
          | (simp only [List.mem_singleton, LAction.merge.injEq] at hm
             subst hm
             simp)
          | simp at hm
  | like tl lk ct =>
      simp only [handleEvent] at hm
      repeat' split at hm
      all_goals
        first
          | exact hlike _ _ _ hm
          | (simp only [List.mem_singleton, LAction.merge.injEq] at hm
             subst hm
             simp)
  | comment user ca =>
      simp only [handleEvent, List.mem_singleton, LAction.merge.injEq] at hm
      subst hm
      simp
  | gift ga ra ca user =>
      simp only [handleEvent, List.mem_singleton, LAction.merge.injEq] at hm
      subst hm
      simp

theorem runSession_updated_aux (clock : Nat → String) (username : String)
    (events : List TEvent) (acc : List LAction × SessState)
    (hacc : ∀ upd, LAction.merge upd ∈ acc.1 → "updated_at" ∈ upd.map Prod.fst) :
    ∀ upd, LAction.merge upd ∈ (events.foldl
      (fun (acc : List LAction × SessState) e =>
        let h := handleEvent clock username acc.2 e
        (acc.1 ++ h.1, h.2)) acc).1 →
      "updated_at" ∈ upd.map Prod.fst := by
  induction events generalizing acc with
  | nil => exact hacc
  | cons e rest ih =>
      intro upd hm
      refine ih _ ?_ upd hm
      intro upd' hm'
      rcases List.mem_append.mp hm' with h | h
      · exact hacc upd' h
      · exact handleEvent_updated clock username acc.2 e upd' h

theorem runSession_updated (clock : Nat → String) (username : String)
    (events : List TEvent) (t : Nat) (upd : List (String × Json))
    (hm : LAction.merge upd ∈ (runSession clock username events t).1) :
    "updated_at" ∈ upd.map Prod.fst := by
  unfold runSession at hm
  exact runSession_updated_aux clock username events ([], ⟨none, t⟩)
    (fun upd' hm' => absurd hm' (List.not_mem_nil _)) upd hm

theorem connFalseUpd_updated (s : String) :
    "updated_at" ∈ (connFalseUpd s).map Prod.fst := by
  simp [connFalseUpd]

theorem runLoop_updated (clock : Nat → String) (username : String)
    (sched : List Iter) (t idx : Nat) (upd : List (String × Json))
    (hm : LAction.merge upd ∈ (runLoop clock username t idx sched).1) :
    "updated_at" ∈ upd.map Prod.fst := by
  induction sched generalizing t idx with
  | nil => simp [runLoop] at hm
  | cons iter rest ih =>
      unfold runLoop at hm
      split at hm
      · simp at hm
      · simp only [] at hm
        split at hm
        · rcases List.mem_append.mp hm with h | h
          · exact runSession_updated clock username iter.events t upd h
          · simp only [List.mem_singleton, LAction.merge.injEq] at h
            subst h
            exact connFalseUpd_updated _
        · rcases List.mem_append.mp hm with h | h
          · exact runSession_updated clock username iter.events t upd h
          · simp only [List.mem_singleton, LAction.merge.injEq] at h
            subst h
            exact connFalseUpd_updated _
        · split at hm
          · rcases List.mem_append.mp hm with h | h
            · exact runSession_updated clock username iter.events t upd h
            · simp only [List.mem_cons, List.mem_singleton,
                LAction.merge.injEq, List.not_mem_nil, or_false] at h
              rcases h with h | h
              · subst h
                exact connFalseUpd_updated _
              · subst h
                exact connFalseUpd_updated _
          · simp only [] at hm
            rcases List.mem_append.mp hm with h | h
            · rcases List.mem_append.mp h with h1 | h1
              · exact runSession_updated clock username iter.events t upd h1
              · simp only [List.mem_cons, List.mem_singleton,
                  List.not_mem_nil, or_false] at h1
                rcases h1 with h1 | h1 | h1
                · rcases LAction.merge.inj h1 with h2
                  subst h2
                  exact connFalseUpd_updated _
                · cases h1
                · rcases LAction.merge.inj h1 with h2
                  subst h2
                  exact connFalseUpd_updated _
            · exact ih _ _ h

theorem run_tiktok_listener_updated (lib : Bool) (clock : Nat → String)
    (username : String) (sched : List Iter) (upd : List (String × Json))
    (hm : LAction.merge upd ∈ (run_tiktok_listener lib clock username sched).1) :
    "updated_at" ∈ upd.map Prod.fst := by
  unfold run_tiktok_listener at hm
  split at hm
  · simp only [List.mem_singleton, LAction.merge.injEq] at hm
    subst hm
    simp
  · split at hm
    · simp only [List.mem_singleton, LAction.merge.injEq] at hm
      subst hm
      simp
    · exact runLoop_updated clock username sched 0 0 upd hm

/-- C1 (amended): `update_live_stats` does not itself set `updated_at` — a
merge whose partial lacks the key leaves `updated_at` exactly as it was; the
timestamp advances only because every `update_live_stats` call the ingestion
loop ever performs includes an `"updated_at"` key in its partial. -/
theorem C1_amended :
    (∀ (fs : FS) (upd : List (String × Json)),
      "updated_at" ∉ upd.map Prod.fst →
      dget (update_live_stats fs upd).1 "updated_at" =
        dget (get_live_stats fs).1 "updated_at") ∧
    (∀ (lib : Bool) (clock : Nat → String) (username : String)
        (sched : List Iter) (upd : List (String × Json)),
      LAction.merge upd ∈ (run_tiktok_listener lib clock username sched).1 →
      "updated_at" ∈ upd.map Prod.fst) := by
  constructor
  · intro fs upd h
    show dget (dictUpdate (get_live_stats fs).1 upd) "updated_at" = _
    exact dget_dictUpdate_not_mem _ _ _ h
  · intro lib clock username sched upd hm
    exact run_tiktok_listener_updated lib clock username sched upd hm

/-- C1 witness: a merge without `updated_at` leaves the stored `"A"` in
place, and the first merge the no-username listener performs carries an
`updated_at` key. -/
theorem C1_amended_witness :
    ("updated_at" ∉ ([("viewers", Json.num 42)].map Prod.fst)) ∧
    dget (update_live_stats fsC1ex [("viewers", .num 42)]).1 "updated_at" =
      dget (get_live_stats fsC1ex).1 "updated_at" ∧
    "updated_at" ∈ ([("connected", Json.bool false),
      ("updated_at", Json.str (clockIx 0)),
      ("tiktok_username", Json.str "")].map Prod.fst) := by
  refine ⟨by decide, ?_, ?_⟩
  · exact C1_amended.1 fsC1ex [("viewers", .num 42)] (by decide)
  · exact C1_amended.2 true clockIx "" [] [("connected", Json.bool false),
      ("updated_at", Json.str (clockIx 0)), ("tiktok_username", Json.str "")]
      (by simp [run_tiktok_listener])

/-! ## Cancellation-safety lemmas -/

theorem runLoop_stopTop (clock : Nat → String) (username : String)
    (sched : List Iter) (t idx n : Nat)
    (h : (runLoop clock username t idx sched).2 = .stoppedAtTop n) :
    idx ≤ n ∧ (n = idx → (runLoop clock username t idx sched).1 = []) := by
  induction sched generalizing t idx with
  | nil => simp [runLoop] at h
  | cons iter rest ih =>
      unfold runLoop at h ⊢
      split at h
      · rename_i hstop
        rw [LoopExit.stoppedAtTop.inj h]
        rw [if_pos hstop]
        exact ⟨Nat.le_refl n, fun _ => rfl⟩
      · rename_i hstop
        rw [if_neg hstop]
        simp only [] at h ⊢
        split at h
        · cases h
        · cases h
        · split at h
          · cases h
          · simp only [] at h ⊢
            have hih := ih _ _ h
            refine ⟨Nat.le_trans (Nat.le_succ idx) hih.1, ?_⟩
            intro hn
            omega

theorem endsConnFalse_apply (acts : List LAction) (s : String) (fs : FS)
    (h : acts.getLast? = some (.merge (connFalseUpd s))) :
    dget (get_live_stats (applyLActions fs acts)).1 "connected" =
      some (.bool false) := by
  induction acts generalizing fs with
  | nil => cases h
  | cons a l ih =>
      cases l with
      | nil =>
          have ha : a = .merge (connFalseUpd s) := by
            simpa using h
          subst ha
          show dget (get_live_stats ((update_live_stats fs (connFalseUpd s)).2)).1
            "connected" = some (.bool false)
          rw [update_then_read]
          show dget (dset (dset (get_live_stats fs).1 "connected" (.bool false))
            "updated_at" (.str s)) "connected" = some (.bool false)
          rw [dget_dset_ne _ _ _ _ (by decide), dget_dset_self]
      | cons b l' =>
          have h' : (b :: l').getLast? = some (.merge (connFalseUpd s)) := by
            simpa using h
          exact ih (applyLAction fs a) h'

theorem getLast_mem (acts : List LAction) (a : LAction)
    (h : acts.getLast? = some a) : a ∈ acts := by
  induction acts with
  | nil => cases h
  | cons x l ih =>
      cases l with
      | nil =>
          have : x = a := by simpa using h
          rw [this]
          exact List.mem_cons_self _ _
      | cons y l' =>
          have h' : (y :: l').getLast? = some a := by simpa using h
          exact List.mem_cons_of_mem _ (ih h')

theorem runLoop_endsConnFalse (clock : Nat → String) (username : String)
    (sched : List Iter) (t idx : Nat)
    (h : (runLoop clock username t idx sched).2 = .cancelledStreaming ∨
      (runLoop clock username t idx sched).2 = .cancelledBackoff ∨
      (runLoop clock username t idx sched).2 = .normalExit ∨
      (∃ n, (runLoop clock username t idx sched).2 = .stoppedAtTop n ∧ idx < n)) :
    ∃ s, (runLoop clock username t idx sched).1.getLast? =
      some (.merge (connFalseUpd s)) := by
  induction sched generalizing t idx with
  | nil =>
      rcases h with h | h | h | ⟨n, h, _⟩ <;> simp [runLoop] at h
  | cons iter rest ih =>
      unfold runLoop at h ⊢
      split at h
      · rcases h with h | h | h | ⟨n, h, hn⟩
        · cases h
        · cases h
        · cases h
        · rw [← LoopExit.stoppedAtTop.inj h] at hn
          exact absurd hn (Nat.lt_irrefl idx)
      · rename_i hstop
        rw [if_neg hstop]
        simp only [] at h ⊢
        split at h <;> rename_i hend
        · exact ⟨_, List.getLast?_concat _⟩
        · exact ⟨_, List.getLast?_concat _⟩
        · split at h <;> rename_i hcb
          · rw [if_pos hcb]
            refine ⟨clock ((runSession clock username iter.events t).2 + 1), ?_⟩
            have heq : (runSession clock username iter.events t).1 ++
                [LAction.merge (connFalseUpd (clock (runSession clock username iter.events t).2)),
                 LAction.merge (connFalseUpd (clock ((runSession clock username iter.events t).2 + 1)))] =
                ((runSession clock username iter.events t).1 ++
                 [LAction.merge (connFalseUpd (clock (runSession clock username iter.events t).2))]) ++
                [LAction.merge (connFalseUpd (clock ((runSession clock username iter.events t).2 + 1)))] := by
              simp [List.append_assoc]
            rw [heq]
            exact List.getLast?_concat _
          · rw [if_neg hcb]
            simp only [] at h ⊢
            by_cases hnil : (runLoop clock username
                ((runSession clock username iter.events t).2 + 2) (idx + 1) rest).1 = []
            · refine ⟨clock ((runSession clock username iter.events t).2 + 1), ?_⟩
              rw [hnil, List.append_nil]
              have heq : (runSession clock username iter.events t).1 ++
                  [LAction.merge (connFalseUpd (clock (runSession clock username iter.events t).2)),
                   LAction.wait 5,
                   LAction.merge (connFalseUpd (clock ((runSession clock username iter.events t).2 + 1)))] =
                  ((runSession clock username iter.events t).1 ++
                   [LAction.merge (connFalseUpd (clock (runSession clock username iter.events t).2)),
                    LAction.wait 5]) ++
                  [LAction.merge (connFalseUpd (clock ((runSession clock username iter.events t).2 + 1)))] := by
                simp [List.append_assoc]
              rw [heq]
              exact List.getLast?_concat _
            · have hih : ∃ s, (runLoop clock username
                  ((runSession clock username iter.events t).2 + 2) (idx + 1) rest).1.getLast? =
                  some (.merge (connFalseUpd s)) := by
                apply ih
                rcases h with h | h | h | ⟨n, h, _⟩
                · exact Or.inl h
                · exact Or.inr (Or.inl h)
                · exact Or.inr (Or.inr (Or.inl h))
                · have hst := runLoop_stopTop clock username rest
                    ((runSession clock username iter.events t).2 + 2) (idx + 1) n h
                  rcases Nat.eq_or_lt_of_le hst.1 with heq | hlt
                  · exact absurd (hst.2 heq.symm) hnil
                  · exact Or.inr (Or.inr (Or.inr ⟨n, h, hlt⟩))
              obtain ⟨s, hs⟩ := hih
              refine ⟨s, ?_⟩
              rw [List.getLast?_append_of_ne_nil _ hnil]
              exact hs

/-- C4: whenever the ingestion loop terminates because of cancellation —
observed between sessions after at least one session has run
(`stoppedAtTop n`, `0 < n`), while streaming (`CancelledError` escaping
`client.start()`), or during the backoff sleep — the trace contains a
`connected:false` merge, and replaying the trace against any store leaves the
snapshot's `connected` field `false`. -/
theorem C4_cancellation_safety (lib : Bool) (clock : Nat → String)
    (username : String) (sched : List Iter)
    (h : (run_tiktok_listener lib clock username sched).2 = .cancelledStreaming ∨
      (run_tiktok_listener lib clock username sched).2 = .cancelledBackoff ∨
      (∃ n, (run_tiktok_listener lib clock username sched).2 = .stoppedAtTop n ∧
        0 < n)) :
    (∃ a ∈ (run_tiktok_listener lib clock username sched).1,
      mergesConnFalse a = true) ∧
    (∀ fs : FS,
      dget (get_live_stats (applyLActions fs
        (run_tiktok_listener lib clock username sched).1)).1 "connected" =
        some (.bool false)) := by
  unfold run_tiktok_listener at h ⊢
  split at h
  · rcases h with h | h | ⟨n, h, _⟩ <;> cases h
  · rename_i hu
    rw [if_neg hu]
    split at h
    · rcases h with h | h | ⟨n, h, _⟩ <;> cases h
    · rename_i hl
      rw [if_neg hl]
      have hloop : ∃ s, (runLoop clock username 0 0 sched).1.getLast? =
          some (.merge (connFalseUpd s)) := by
        apply runLoop_endsConnFalse
        rcases h with h | h | ⟨n, h, hn⟩
        · exact Or.inl h
        · exact Or.inr (Or.inl h)
        · exact Or.inr (Or.inr (Or.inr ⟨n, h, hn⟩))
      obtain ⟨s, hs⟩ := hloop
      constructor
      · refine ⟨.merge (connFalseUpd s), getLast_mem _ _ hs, ?_⟩
        rfl
      · intro fs
        exact endsConnFalse_apply _ s fs hs

/-- C4 witness: a session that connects and then fails, with cancellation
arriving during the backoff sleep; replayed on a store whose snapshot said
`connected: true`, the final snapshot says `connected: false`. -/
theorem C4_cancellation_safety_witness :
    (run_tiktok_listener true clockIx "wavy" sched4ex).2 =
      LoopExit.cancelledBackoff ∧
    dget (get_live_stats (applyLActions fsC4ex
      (run_tiktok_listener true clockIx "wavy" sched4ex).1)).1 "connected" =
      some (.bool false) := by
  refine ⟨rfl, ?_⟩
  exact (C4_cancellation_safety true clockIx "wavy" sched4ex
    (Or.inr (Or.inl rfl))).2 fsC4ex

/-- C3 counterexample: in the reconnect-cycle scenario — three immediately
failing sessions followed by a successful connect — the trace up to the first
`connected:true` merge contains six `connected:false` merges, not three: the
`finally` block of the session `try` runs on the `continue` path as well, so
each failure merges `connected:false` both before and after its backoff wait. -/
theorem C3_counterexample :
    List.countP mergesConnFalse
      (((run_tiktok_listener true clockIx "wavy" sched3ok).1).takeWhile
        (fun a => !(mergesConnTrue a))) = 6 ∧
    List.countP mergesConnFalse
      (((run_tiktok_listener true clockIx "wavy" sched3ok).1).takeWhile
        (fun a => !(mergesConnTrue a))) ≠ 3 := by
  refine ⟨by decide, by decide⟩

/-- C3 (amended): three consecutive session failures produce exactly six
`connected:false` merges — two per failure, one immediately on the failure
and one after the backoff wait (the `finally` cleanup runs on loop
continuation too) — with exactly one 5-unit backoff wait per failure between
its two merges; the subsequent successful connect then merges
`connected:true` (and the session's normal end merges `connected:false`
once more on exit). -/
theorem C3_amended (clock : Nat → String) (username : String)
    (h : username ≠ "") :
    run_tiktok_listener true clock username sched3ok =
      ([.merge (connFalseUpd (clock 0)), .wait 5, .merge (connFalseUpd (clock 1)),
        .merge (connFalseUpd (clock 2)), .wait 5, .merge (connFalseUpd (clock 3)),
        .merge (connFalseUpd (clock 4)), .wait 5, .merge (connFalseUpd (clock 5)),
        .merge [("connected", .bool true), ("updated_at", .str (clock 6)),
                ("tiktok_username", .str username)],
        .merge (connFalseUpd (clock 7))], .normalExit) := by
  unfold run_tiktok_listener
  rw [if_neg h, if_neg (by decide : ¬(true = false))]
  rfl

/-- C3 witness: the amended trace evaluated with a concrete clock and
username. -/
theorem C3_amended_witness :
    ("wavy" : String) ≠ "" ∧
    run_tiktok_listener true clockIx "wavy" sched3ok =
      ([.merge (connFalseUpd (clockIx 0)), .wait 5, .merge (connFalseUpd (clockIx 1)),
        .merge (connFalseUpd (clockIx 2)), .wait 5, .merge (connFalseUpd (clockIx 3)),
        .merge (connFalseUpd (clockIx 4)), .wait 5, .merge (connFalseUpd (clockIx 5)),
        .merge [("connected", .bool true), ("updated_at", .str (clockIx 6)),
                ("tiktok_username", .str "wavy")],
        .merge (connFalseUpd (clockIx 7))], .normalExit) :=
  ⟨by decide, C3_amended clockIx "wavy" (by decide)⟩
